import Mathlib

/-!
Verification of the merge-compaction task (`mergeObjectsTask`) of a
column-oriented transactional table store, as a shallow embedding.

The Go source (`jobs` package) is translated function by function:
fallible calls become `Except`, Go panics become an explicit `panicked`
outcome, and the stateful catalog-apply phase becomes an explicit
operation trace over an `ApplyState`.
-/

set_option autoImplicit false

namespace MergeSpec

/-- Errors surfaced by catalog lookups and injected failures. -/
inductive MergeError where
  | notFoundDB (id : Nat)
  | notFoundRel (id : Nat)
  | notFoundObj (id : Nat)
  | injected (code : Nat)
  deriving DecidableEq, Repr

/-- Kinds of Go runtime panics the translated code can raise. -/
inductive PanicKind where
  | emptyMergedObjs
  | columnMismatch
  | indexOutOfRange
  | nilView
  deriving DecidableEq, Repr

/-- Result of a Go function that can return normally, return an error,
or terminate the goroutine with a runtime panic. -/
inductive GoResult (α : Type) where
  | ok (a : α)
  | err (e : MergeError)
  | panicked (k : PanicKind)
  deriving DecidableEq, Repr

/-- `objectio.ObjectStats`: finalized statistics of one object; the
object identifier is embedded (`stats.ObjectName().ObjectId()`). -/
structure ObjectStats where
  objectID : Nat
  rowCnt : Nat
  deriving DecidableEq, Repr, Inhabited

/-- `catalog.ObjectEntry`: an immutable object of one table.
`dbID` models `GetTable().GetDB().ID`, `tableID` models `GetTable().ID`,
`blockCnt` models `BlockCnt()`, `stats` models `GetObjectStats()`. -/
structure ObjectEntry where
  id : Nat
  dbID : Nat
  tableID : Nat
  blockCnt : Nat
  stats : ObjectStats
  deriving DecidableEq, Repr, Inhabited

/-- One column definition of a schema. -/
structure ColDef where
  name : String
  idx : Nat
  seqNum : Nat
  isPhyAddr : Bool
  deriving DecidableEq, Repr

/-- The designated single sort key of a schema: its column position and
whether it is the primary key. -/
structure SortKeyDef where
  idx : Nat
  isPrimary : Bool
  deriving DecidableEq, Repr

/-- Modelled from the spec: `catalog.Schema` is repository code outside
the sampled files.  Per the spec's data model a table schema has ordered
column definitions (each with a stable sequence number, a logical index
and flags for "is physical-address pseudo-column" and "is sort/primary
key"), a schema version, a name and a maximum row count per output
block; the sort key, when present, is a single designated column that
may or may not be the primary key. -/
structure Schema where
  name : String
  version : Nat
  blockMaxRows : Nat
  colDefs : List ColDef
  sortKey : Option SortKeyDef
  deriving DecidableEq, Repr

/-- Modelled from the spec: `Schema.HasPK` holds when the sort key
exists and is the primary key. -/
def Schema.HasPK (s : Schema) : Bool :=
  match s.sortKey with
  | some k => k.isPrimary
  | none => false

/-- Modelled from the spec: `Schema.HasSortKey` holds when a sort key is
designated. -/
def Schema.HasSortKey (s : Schema) : Bool :=
  s.sortKey.isSome

/-- Modelled from the spec: `Schema.GetSingleSortKeyIdx` is the column
position of the single sort key (only consulted under `HasSortKey` or
`HasPK`). -/
def Schema.GetSingleSortKeyIdx (s : Schema) : Int :=
  match s.sortKey with
  | some k => (k.idx : Int)
  | none => -1

/-- `handle.Relation` restricted to what the task uses: its id, its
schema (`rel.Schema()`), and the objects it currently holds. -/
structure Relation where
  id : Nat
  schema : Schema
  objects : List ObjectEntry
  deriving DecidableEq, Repr

/-- `rel.GetObject(&id)`: resolve an object handle by identity. -/
def Relation.GetObject (rel : Relation) (oid : Nat) : Except MergeError ObjectEntry :=
  match rel.objects.find? (fun o => o.id == oid) with
  | some o => .ok o
  | none => .error (.notFoundObj oid)

/-- `handle.Database` restricted to relation lookup. -/
structure DatabaseModel where
  id : Nat
  relations : List Relation
  deriving DecidableEq, Repr

/-- `database.GetRelationByID(tid)`. -/
def DatabaseModel.GetRelationByID (db : DatabaseModel) (tid : Nat) : Except MergeError Relation :=
  match db.relations.find? (fun r => r.id == tid) with
  | some r => .ok r
  | none => .error (.notFoundRel tid)

/-- `txnif.AsyncTxn` restricted to what the task uses: database lookup
and the start timestamp. -/
structure TxnModel where
  startTS : Nat
  databases : List DatabaseModel
  deriving DecidableEq, Repr

/-- `txn.GetDatabaseByID(did)`. -/
def TxnModel.GetDatabaseByID (txn : TxnModel) (did : Nat) : Except MergeError DatabaseModel :=
  match txn.databases.find? (fun d => d.id == did) with
  | some d => .ok d
  | none => .error (.notFoundDB did)

/-- A catalog/storage access performed during task construction. -/
inductive CatAccess where
  | getDatabase (id : Nat)
  | getRelation (id : Nat)
  | getObject (id : Nat)
  deriving DecidableEq, Repr

/-- The fields of `mergeObjectsTask` fixed at construction. -/
structure MergeTaskState where
  txnStartTS : Nat
  did : Nat
  tid : Nat
  rel : Relation
  mergedObjs : List ObjectEntry
  mergedObjsHandle : List ObjectEntry
  mergedBlkCnt : List Nat
  totalMergedBlkCnt : Nat
  deriving DecidableEq, Repr

/-- The block-count prefix loop of `NewMergeObjectsTask`:
`mergedBlkCnt[i] = totalMergedBlkCnt` so far, then
`totalMergedBlkCnt += obj.BlockCnt()`. -/
def blkCntFold (objs : List ObjectEntry) : List Nat × Nat :=
  objs.foldl (fun acc o => (acc.1 ++ [acc.2], acc.2 + o.blockCnt)) ([], 0)

/-- The handle-resolution loop of `NewMergeObjectsTask`: resolve each
source object against the single relation, recording each
`GetObject` access, stopping at the first failure. -/
def resolveHandles (rel : Relation) :
    List ObjectEntry → Except MergeError (List ObjectEntry) × List CatAccess
  | [] => (.ok [], [])
  | m :: rest =>
    match rel.GetObject m.id with
    | .error e => (.error e, [CatAccess.getObject m.id])
    | .ok o =>
      match resolveHandles rel rest with
      | (.error e, tr) => (.error e, CatAccess.getObject m.id :: tr)
      | (.ok os, tr) => (.ok (o :: os), CatAccess.getObject m.id :: tr)

/-- `NewMergeObjectsTask`: panics on an empty source list; computes the
flattened block-offset bases; derives the database id and table id from
the first source object's table; resolves the relation and every
source-object handle.  The second component is the ordered trace of
catalog accesses performed. -/
def NewMergeObjectsTask (txn : TxnModel) (mergedObjs : List ObjectEntry) :
    GoResult MergeTaskState × List CatAccess :=
  match mergedObjs with
  | [] => (.panicked .emptyMergedObjs, [])
  | m0 :: _ =>
    let bc := blkCntFold mergedObjs
    let did := m0.dbID
    match txn.GetDatabaseByID did with
    | .error e => (.err e, [CatAccess.getDatabase did])
    | .ok db =>
      let tid := m0.tableID
      match db.GetRelationByID tid with
      | .error e => (.err e, [CatAccess.getDatabase did, CatAccess.getRelation tid])
      | .ok rel =>
        match resolveHandles rel mergedObjs with
        | (.error e, tr) =>
          (.err e, CatAccess.getDatabase did :: CatAccess.getRelation tid :: tr)
        | (.ok hs, tr) =>
          (.ok { txnStartTS := txn.startTS, did := did, tid := tid, rel := rel,
                 mergedObjs := mergedObjs, mergedObjsHandle := hs,
                 mergedBlkCnt := bc.1, totalMergedBlkCnt := bc.2 },
           CatAccess.getDatabase did :: CatAccess.getRelation tid :: tr)

/-- `mergesort.MergeCommitEntry`: the transfer record built by
`PrepareCommitEntry`. -/
structure MergeCommitEntry where
  dbID : Nat
  tableID : Nat
  tablename : String
  startTS : Nat
  mergedObjs : List ObjectStats
  createdObjectStats : List ObjectStats
  booking : Option Nat
  deriving DecidableEq, Repr

/-- `PrepareCommitEntry`: assemble the commit entry from the task's
identity, the transaction's start timestamp and the source objects'
statistics; the booking map is left to the merge phase. -/
def PrepareCommitEntry (task : MergeTaskState) : MergeCommitEntry :=
  { dbID := task.did
    tableID := task.tid
    tablename := task.rel.schema.name
    startTS := task.txnStartTS
    mergedObjs := task.mergedObjs.map (fun o => o.stats)
    createdObjectStats := []
    booking := none }

/-- A materialized column inside a `BlockView`; `colLen` models
`col.Length()` and `data` abstracts the vector payload. -/
structure ColumnModel where
  data : Nat
  colLen : Nat
  deriving DecidableEq, Repr, Inhabited

/-- `containers.BlockView`: the selected columns plus the block's
deletion mask. -/
structure BlockViewModel where
  columns : List ColumnModel
  deleteMask : List Nat
  deriving DecidableEq, Repr, Inhabited

/-- `batch.Batch` as assembled by `PrepareData`: attribute names, column
vectors and the row count. -/
structure BatchModel where
  attrs : List String
  vecs : List ColumnModel
  rowCount : Nat
  deriving DecidableEq, Repr, Inhabited

/-- The block reader: `obj.GetColumnDataByIds(ctx, j, idxs, allocator)`
for handle `obj`, block offset `j` within the object, and requested
column indices `idxs`. -/
def ReaderFn : Type :=
  ObjectEntry → Nat → List Nat → Except MergeError BlockViewModel

/-- The non-physical-address column definitions of a schema, in order. -/
def nonPhyDefs (s : Schema) : List ColDef :=
  s.colDefs.filter (fun d => !d.isPhyAddr)

/-- The column indices `PrepareData` requests (all non-phy-addr). -/
def prepIdxs (s : Schema) : List Nat :=
  (nonPhyDefs s).map (fun d => d.idx)

/-- The attribute names `PrepareData` uses for each batch. -/
def prepAttrs (s : Schema) : List String :=
  (nonPhyDefs s).map (fun d => d.name)

/-- The inner loop of `PrepareData`'s read phase:
`for j := 0; j < cnt; j++ { views[minOff+j], err = obj.GetColumnDataByIds(...) }`,
stopping at the first failing read and returning the views filled so
far. -/
def readBlocksLoop (reader : ReaderFn) (idxs : List Nat) (obj : ObjectEntry)
    (minOff : Nat) (j : Nat) (cnt : Nat)
    (views : List (Option BlockViewModel)) :
    Option MergeError × List (Option BlockViewModel) :=
  if j < cnt then
    match reader obj j idxs with
    | .error e => (some e, views)
    | .ok v => readBlocksLoop reader idxs obj minOff (j + 1) cnt (views.set (minOff + j) (some v))
  else (none, views)
termination_by cnt - j

/-- The outer loop of `PrepareData`'s read phase over
`task.mergedObjsHandle`, computing each object's block-offset window
from `task.mergedBlkCnt` and `task.totalMergedBlkCnt` exactly as the
source does. -/
def readObjsLoop (task : MergeTaskState) (reader : ReaderFn) (idxs : List Nat)
    (i : Nat) (views : List (Option BlockViewModel)) :
    Option MergeError × List (Option BlockViewModel) :=
  if h : i < task.mergedObjsHandle.length then
    let obj := task.mergedObjsHandle.getD i default
    let maxOff :=
      if i = task.mergedObjs.length - 1 then task.totalMergedBlkCnt
      else task.mergedBlkCnt.getD (i + 1) 0
    let minOff := task.mergedBlkCnt.getD i 0
    match readBlocksLoop reader idxs obj minOff 0 (maxOff - minOff) views with
    | (some e, vs) => (some e, vs)
    | (none, vs) => readObjsLoop task reader idxs (i + 1) vs
  else (none, views)
termination_by task.mergedObjsHandle.length - i

/-- The batch-assembly loop of `PrepareData`: for each view in offset
order, panic on a column-count mismatch, otherwise take the view's
columns as the batch vectors, the first column's length as the row
count, and the view's deletion mask. -/
def buildBatches (attrs : List String) :
    List (Option BlockViewModel) → Except PanicKind (List BatchModel × List (List Nat))
  | [] => .ok ([], [])
  | none :: _ => .error .nilView
  | some v :: rest =>
    if attrs.length ≠ v.columns.length then .error .columnMismatch
    else
      match v.columns.head? with
      | none => .error .indexOutOfRange
      | some c0 =>
        match buildBatches attrs rest with
        | .error k => .error k
        | .ok (bs, ds) =>
          .ok ({ attrs := attrs, vecs := v.columns, rowCount := c0.colLen } :: bs,
               v.deleteMask :: ds)

/-- The view-release callback `releaseF`: close every non-nil view of
the array in index order; a view's identity is its global block
offset. -/
def closedOffsets (i : Nat) : List (Option BlockViewModel) → List Nat
  | [] => []
  | none :: rest => closedOffsets (i + 1) rest
  | some _ :: rest => i :: closedOffsets (i + 1) rest

/-- Outcome of `PrepareData`.  `closed` is the list of view offsets
released during the call itself (by the deferred `releaseF` on error;
the deferred release does not fire on a nil error, hence not on panic);
`releaseOffsets` is the list of offsets the returned release function
closes when invoked. -/
inductive PrepResult where
  | ok (batches : List BatchModel) (dels : List (List Nat)) (releaseOffsets : List Nat)
  | err (e : MergeError) (closed : List Nat)
  | panicked (k : PanicKind) (closed : List Nat)
  deriving DecidableEq, Repr

/-- `PrepareData`: allocate the view array of size
`totalMergedBlkCnt`, read every block's non-phy-addr columns and
deletion mask, then assemble one batch and one mask per view.  On a
read failure the deferred release closes every view acquired so far; on
success the returned release closes every view. -/
def PrepareData (task : MergeTaskState) (reader : ReaderFn) : PrepResult :=
  let views0 : List (Option BlockViewModel) := List.replicate task.totalMergedBlkCnt none
  let idxs := prepIdxs task.rel.schema
  let attrs := prepAttrs task.rel.schema
  match readObjsLoop task reader idxs 0 views0 with
  | (some e, vs) => .err e (closedOffsets 0 vs)
  | (none, vs) =>
    match buildBatches attrs vs with
    | .error k => .panicked k []
    | .ok (bs, ds) => .ok bs ds (closedOffsets 0 vs)

/-- The parameters `PrepareNewWriterFunc` hands to
`mergesort.GetMustNewWriter`. -/
structure WriterParams where
  version : Nat
  seqnums : List Nat
  sortkeyPos : Int
  sortkeyIsPK : Bool
  deriving DecidableEq, Repr

/-- `PrepareNewWriterFunc`: collect the non-phy-addr sequence numbers;
the sort-key position is the single sort key's index when the schema
has a primary key or a sort key, with the primary-key flag set only in
the former case. -/
def PrepareNewWriterFunc (schema : Schema) : WriterParams :=
  let seqnums := (schema.colDefs.filter (fun d => !d.isPhyAddr)).map (fun d => d.seqNum)
  let p : Int × Bool :=
    if schema.HasPK then (schema.GetSingleSortKeyIdx, true)
    else if schema.HasSortKey then (schema.GetSingleSortKeyIdx, false)
    else (-1, false)
  { version := schema.version, seqnums := seqnums, sortkeyPos := p.1, sortkeyIsPK := p.2 }

/-- A created-object handle as recorded by the catalog-apply phase:
its identity, its attached statistics and its sorted flag. -/
structure CreatedObjRec where
  id : Nat
  stats : Option ObjectStats
  sorted : Bool
  deriving DecidableEq, Repr, Inhabited

/-- The sort-key position `Execute` computes for `DoMergeAndWrite`. -/
def executeSortkeyPos (s : Schema) : Int :=
  if s.HasSortKey then s.GetSingleSortKeyIdx else -1

/-- Observable outcome of `Execute`: the argument list of each
`DoMergeAndWrite` call, the number of catalog-apply calls, the phase
name logged with the error (by the deferred logger, only when the
returned error is non-nil), the returned error, and the created-object
field. -/
structure ExecTrace where
  mwCalls : List (Int × Nat)
  applyCalls : Nat
  loggedPhase : Option (String × MergeError)
  retErr : Option MergeError
  createdBObjs : List CreatedObjRec
  deriving DecidableEq, Repr

/-- `Execute`: run `DoMergeAndWrite` with the schema's sort-key
position (or -1) and per-block row cap, then the catalog-apply phase;
record the phase name before each step; on failure log the phase with
the error and return the error unchanged.  The two phases are
abstracted by their outcomes `mw` and `applyRes`. -/
def ExecuteModel (schema : Schema) (mw : Int → Nat → Except MergeError Unit)
    (applyRes : Except MergeError (List CreatedObjRec)) : ExecTrace :=
  match mw (executeSortkeyPos schema) schema.blockMaxRows with
  | .error e =>
    { mwCalls := [(executeSortkeyPos schema, schema.blockMaxRows)], applyCalls := 0,
      loggedPhase := some ("1-DoMergeAndWrite", e), retErr := some e, createdBObjs := [] }
  | .ok _ =>
    match applyRes with
    | .error e =>
      { mwCalls := [(executeSortkeyPos schema, schema.blockMaxRows)], applyCalls := 1,
        loggedPhase := some ("2-HandleMergeEntryInTxn", e), retErr := some e, createdBObjs := [] }
    | .ok objs =>
      { mwCalls := [(executeSortkeyPos schema, schema.blockMaxRows)], applyCalls := 1,
        loggedPhase := none, retErr := none, createdBObjs := objs }

/-- One catalog operation attempted by `HandleMergeEntryInTxn`, in
source order. -/
inductive CatOp where
  | getDatabase (id : Nat)
  | getRelation (id : Nat)
  | getObject (id : Nat)
  | softDelete (id : Nat)
  | createObj (id : Nat)
  | updateStats (id : Nat) (stats : ObjectStats)
  | setSorted (id : Nat)
  | newMergeEntry
  | logTxnEntry (dbID tableID : Nat)
  deriving DecidableEq, Repr, Inhabited

/-- The transactional log entry built by `NewMergeObjectsEntry` and
appended by `LogTxnEntry`: the old-to-new object transition plus the
booking map, scoped by database id and table id. -/
structure LogEntryRec where
  dbID : Nat
  tableID : Nat
  mergedIDs : List Nat
  createdIDs : List Nat
  booking : Option Nat
  deriving DecidableEq, Repr

/-- The observable catalog state threaded through
`HandleMergeEntryInTxn`: the trace of attempted operations, the
recorded source-object metas, the soft-deleted object ids, the created
object records and the appended log entries. -/
structure ApplyState where
  trace : List CatOp
  mergedMetas : List Nat
  softDeleted : List Nat
  created : List CreatedObjRec
  logged : List LogEntryRec
  deriving DecidableEq, Repr

/-- The initial (empty) apply state. -/
def initApplyState : ApplyState :=
  { trace := [], mergedMetas := [], softDeleted := [], created := [], logged := [] }

/-- The fixed operation sequence `HandleMergeEntryInTxn` attempts for a
commit entry: database and relation lookup; per source object a lookup
and a soft-delete; per created-statistics entry a create, a stats
update and a sorted mark; then log-entry construction and append. -/
def opSeq (entry : MergeCommitEntry) : List CatOp :=
  [CatOp.getDatabase entry.dbID, CatOp.getRelation entry.tableID]
    ++ (entry.mergedObjs.flatMap
        (fun s => [CatOp.getObject s.objectID, CatOp.softDelete s.objectID]))
    ++ (entry.createdObjectStats.flatMap
        (fun s => [CatOp.createObj s.objectID, CatOp.updateStats s.objectID s,
                   CatOp.setSorted s.objectID]))
    ++ [CatOp.newMergeEntry, CatOp.logTxnEntry entry.dbID entry.tableID]

/-- Replace the last element of a list, if any (the handle most
recently created is the one whose stats and sorted flag are set). -/
def modifyLast {α : Type} (f : α → α) : List α → List α
  | [] => []
  | [a] => [f a]
  | a :: b :: rest => a :: modifyLast f (b :: rest)

/-- The state mutation of one successful catalog operation. -/
def opEffect (booking : Option Nat) (op : CatOp) (st : ApplyState) : ApplyState :=
  match op with
  | .getObject oid => { st with mergedMetas := st.mergedMetas ++ [oid] }
  | .softDelete oid => { st with softDeleted := st.softDeleted ++ [oid] }
  | .createObj oid =>
    { st with created := st.created ++ [{ id := oid, stats := none, sorted := false }] }
  | .updateStats _ s =>
    { st with created := modifyLast (fun r => { r with stats := some s }) st.created }
  | .setSorted _ =>
    { st with created := modifyLast (fun r => { r with sorted := true }) st.created }
  | .logTxnEntry d t =>
    { st with logged := st.logged ++
        [{ dbID := d, tableID := t, mergedIDs := st.mergedMetas,
           createdIDs := st.created.map (fun r => r.id), booking := booking }] }
  | _ => st

/-- Whether a catalog operation can return an error in the source
(`SetSorted` has no error return). -/
def opFallible : CatOp → Bool
  | .setSorted _ => false
  | _ => true

/-- The relation a commit entry resolves to in a transaction. -/
def applyRel (txn : TxnModel) (entry : MergeCommitEntry) : Option Relation :=
  match txn.GetDatabaseByID entry.dbID with
  | .error _ => none
  | .ok db =>
    match db.GetRelationByID entry.tableID with
    | .error _ => none
    | .ok rel => some rel

/-- The natural failure of a catalog operation: a missing database,
relation or object.  Other operations fail only by injection. -/
def natFail (txn : TxnModel) (entry : MergeCommitEntry) : CatOp → Option MergeError
  | .getDatabase d =>
    match txn.GetDatabaseByID d with
    | .ok _ => none
    | .error e => some e
  | .getRelation t =>
    match txn.GetDatabaseByID entry.dbID with
    | .error e => some e
    | .ok db =>
      match db.GetRelationByID t with
      | .ok _ => none
      | .error e => some e
  | .getObject oid =>
    match applyRel txn entry with
    | none => some (.notFoundObj oid)
    | some rel =>
      match rel.GetObject oid with
      | .ok _ => none
      | .error e => some e
  | _ => none

/-- Whether the `k`-th attempted operation fails: an injected failure
(for fallible operations) takes effect first, then the natural lookup
failure. -/
def stopCheck (env : Nat → Option MergeError) (txn : TxnModel) (entry : MergeCommitEntry)
    (k : Nat) (op : CatOp) : Option MergeError :=
  if opFallible op then
    match env k with
    | some e => some e
    | none => natFail txn entry op
  else natFail txn entry op

/-- Run the operation sequence: each operation is traced when
attempted; the run stops at the first failing operation, whose effect
is not applied; a successful operation's effect is applied and the run
continues. -/
def runOps (env : Nat → Option MergeError) (txn : TxnModel) (entry : MergeCommitEntry) :
    List CatOp → ApplyState → Option MergeError × ApplyState
  | [], st => (none, st)
  | op :: rest, st =>
    let st1 := { st with trace := st.trace ++ [op] }
    match stopCheck env txn entry st.trace.length op with
    | some e => (some e, st1)
    | none => runOps env txn entry rest (opEffect entry.booking op st1)

/-- `HandleMergeEntryInTxn`: attempt the operation sequence from the
empty state; on any failure return that error (with the state reached),
otherwise return the created-object records. -/
def HandleMergeEntryInTxn (env : Nat → Option MergeError) (txn : TxnModel)
    (entry : MergeCommitEntry) :
    Except MergeError (List CreatedObjRec) × ApplyState :=
  match runOps env txn entry (opSeq entry) initApplyState with
  | (some e, st) => (.error e, st)
  | (none, st) => (.ok st.created, st)

/-- The environment injecting no failures. -/
def noFail : Nat → Option MergeError := fun _ => none

/-! ## Constructor characterization -/

/-- Total block count over a list of source objects. -/
def sumBlk (objs : List ObjectEntry) : Nat :=
  (objs.map (fun o => o.blockCnt)).sum

/-- Exclusive prefix sums of block counts starting at `t`: the global
block-offset base of each source object. -/
def baseOffsets (t : Nat) : List ObjectEntry → List Nat
  | [] => []
  | o :: rest => t :: baseOffsets (t + o.blockCnt) rest

theorem blkCntFold_aux (objs : List ObjectEntry) (acc : List Nat) (t : Nat) :
    objs.foldl (fun acc o => (acc.1 ++ [acc.2], acc.2 + o.blockCnt)) (acc, t)
      = (acc ++ baseOffsets t objs, t + sumBlk objs) := by
  induction objs generalizing acc t with
  | nil => simp [baseOffsets, sumBlk]
  | cons o rest ih =>
    simp only [List.foldl_cons, baseOffsets, ih, sumBlk, List.map_cons, List.sum_cons,
      Prod.mk.injEq]
    constructor
    · simp
    · omega

theorem blkCntFold_eq (objs : List ObjectEntry) :
    blkCntFold objs = (baseOffsets 0 objs, sumBlk objs) := by
  unfold blkCntFold
  rw [blkCntFold_aux]
  simp

theorem resolveHandles_ok (rel : Relation) :
    ∀ (objs hs : List ObjectEntry) (tr : List CatAccess),
      resolveHandles rel objs = (.ok hs, tr) →
      List.Forall₂ (fun m hdl => rel.GetObject m.id = .ok hdl) objs hs := by
  intro objs
  induction objs with
  | nil =>
    intro hs tr h
    simp only [resolveHandles, Prod.mk.injEq] at h
    obtain ⟨h1, _⟩ := h
    cases h1
    exact List.Forall₂.nil
  | cons m rest ih =>
    intro hs tr h
    unfold resolveHandles at h
    cases hg : rel.GetObject m.id with
    | error e => rw [hg] at h; simp at h
    | ok o =>
      rw [hg] at h
      cases hr : resolveHandles rel rest with
      | mk fst tr2 =>
        cases fst with
        | error e => rw [hr] at h; simp at h
        | ok os =>
          rw [hr] at h
          simp only [Prod.mk.injEq] at h
          obtain ⟨h1, _⟩ := h
          cases h1
          exact List.Forall₂.cons hg (ih os tr2 hr)

theorem NewTask_ok_fields (txn : TxnModel) (objs : List ObjectEntry)
    (task : MergeTaskState) (tr : List CatAccess)
    (h : NewMergeObjectsTask txn objs = (.ok task, tr)) :
    task.mergedObjs = objs ∧
    task.mergedBlkCnt = baseOffsets 0 objs ∧
    task.totalMergedBlkCnt = sumBlk objs ∧
    task.txnStartTS = txn.startTS ∧
    List.Forall₂ (fun m hdl => task.rel.GetObject m.id = .ok hdl) objs task.mergedObjsHandle ∧
    (∃ m0 rest, objs = m0 :: rest ∧ task.did = m0.dbID ∧ task.tid = m0.tableID ∧
      ∃ db, txn.GetDatabaseByID m0.dbID = .ok db ∧
        db.GetRelationByID m0.tableID = .ok task.rel) := by
  cases objs with
  | nil => simp [NewMergeObjectsTask] at h
  | cons m0 rest =>
    unfold NewMergeObjectsTask at h
    dsimp only at h
    split at h
    · simp at h
    next db hdb =>
      split at h
      · simp at h
      next rel hrel =>
        split at h
        · simp at h
        next hs tr2 hres =>
          simp only [Prod.mk.injEq, GoResult.ok.injEq] at h
          obtain ⟨h1, _⟩ := h
          subst h1
          refine ⟨rfl, ?_, ?_, rfl, ?_, m0, rest, rfl, rfl, rfl, db, hdb, hrel⟩
          · simp [blkCntFold_eq]
          · simp [blkCntFold_eq]
          · exact resolveHandles_ok rel (m0 :: rest) hs tr2 hres

/-! ## Claim C1 -/

/-- Claim C1 (counterexample): constructing a merge task with an empty
source-object list does not return a validation error — the call
panics (`panic("empty mergedObjs")`), so the claim that it "fails by
returning a validation/configuration error ... and does not crash the
process" is false on the code. -/
theorem C1_counterexample :
    NewMergeObjectsTask { startTS := 0, databases := [] } [] =
      (GoResult.panicked PanicKind.emptyMergedObjs, []) := rfl

/-- Claim C1 (amended): constructing a merge task with an empty
source-object list panics (a runtime panic, not a returned error)
before any catalog or storage access occurs — the access trace is
empty. -/
theorem C1_empty_input_panics (txn : TxnModel) :
    NewMergeObjectsTask txn [] = (GoResult.panicked PanicKind.emptyMergedObjs, []) := rfl

/-! ## Claim C4 -/

/-- Claim C4: the sort-key position `Execute` passes to
`DoMergeAndWrite` equals the sort-key position the writer factory is
parameterized with; both are the table's single sort-key position, or
-1 when no sort key is designated; and the factory's primary-key flag
is set exactly when the sort key is the primary key. -/
theorem C4_sortkey_position_consistent (s : Schema)
    (mw : Int → Nat → Except MergeError Unit)
    (applyRes : Except MergeError (List CreatedObjRec)) :
    (ExecuteModel s mw applyRes).mwCalls
        = [((PrepareNewWriterFunc s).sortkeyPos, s.blockMaxRows)] ∧
    (PrepareNewWriterFunc s).sortkeyPos = executeSortkeyPos s ∧
    (PrepareNewWriterFunc s).sortkeyPos
        = (match s.sortKey with | some k => (k.idx : Int) | none => -1) ∧
    ((PrepareNewWriterFunc s).sortkeyIsPK = true ↔
      ∃ k, s.sortKey = some k ∧ k.isPrimary = true) := by
  have hpos : (PrepareNewWriterFunc s).sortkeyPos = executeSortkeyPos s := by
    rcases s with ⟨n, v, b, cds, sk⟩
    rcases sk with _ | ⟨i, p⟩
    · rfl
    · cases p <;> rfl
  refine ⟨?_, hpos, ?_, ?_⟩
  · rw [hpos]
    unfold ExecuteModel
    cases hmw : mw (executeSortkeyPos s) s.blockMaxRows with
    | error e => rfl
    | ok u => cases applyRes <;> rfl
  · rw [hpos]
    rcases s with ⟨n, v, b, cds, sk⟩
    rcases sk with _ | ⟨i, p⟩
    · rfl
    · cases p <;> rfl
  · rcases s with ⟨n, v, b, cds, sk⟩
    rcases sk with _ | ⟨i, p⟩
    · simp [PrepareNewWriterFunc, Schema.HasPK, Schema.HasSortKey]
    · cases p <;>
        simp [PrepareNewWriterFunc, Schema.HasPK, Schema.HasSortKey, Schema.GetSingleSortKeyIdx]

/-! ## Claim C8 -/

/-- Claim C8: `Execute` runs the merge-and-write phase exactly once and
the catalog-apply phase at most once and only after the former
succeeded; on failure of either phase the phase's name is logged with
the error and the very same error value is returned, with the later
phase not attempted; on success nothing is logged and the created
objects are recorded. -/
theorem C8_phase_sequencing (s : Schema) (mw : Int → Nat → Except MergeError Unit)
    (applyRes : Except MergeError (List CreatedObjRec)) :
    (ExecuteModel s mw applyRes).mwCalls.length = 1 ∧
    (ExecuteModel s mw applyRes).applyCalls ≤ 1 ∧
    ((ExecuteModel s mw applyRes).applyCalls = 1 →
      mw (executeSortkeyPos s) s.blockMaxRows = .ok ()) ∧
    (∀ e, mw (executeSortkeyPos s) s.blockMaxRows = .error e →
      (ExecuteModel s mw applyRes).retErr = some e ∧
      (ExecuteModel s mw applyRes).loggedPhase = some ("1-DoMergeAndWrite", e) ∧
      (ExecuteModel s mw applyRes).applyCalls = 0) ∧
    (∀ e, mw (executeSortkeyPos s) s.blockMaxRows = .ok () → applyRes = .error e →
      (ExecuteModel s mw applyRes).retErr = some e ∧
      (ExecuteModel s mw applyRes).loggedPhase = some ("2-HandleMergeEntryInTxn", e) ∧
      (ExecuteModel s mw applyRes).applyCalls = 1) ∧
    (∀ objs, mw (executeSortkeyPos s) s.blockMaxRows = .ok () → applyRes = .ok objs →
      (ExecuteModel s mw applyRes).retErr = none ∧
      (ExecuteModel s mw applyRes).loggedPhase = none ∧
      (ExecuteModel s mw applyRes).createdBObjs = objs) := by
  cases hmw : mw (executeSortkeyPos s) s.blockMaxRows with
  | error e =>
    have hE : ExecuteModel s mw applyRes =
        { mwCalls := [(executeSortkeyPos s, s.blockMaxRows)], applyCalls := 0,
          loggedPhase := some ("1-DoMergeAndWrite", e), retErr := some e,
          createdBObjs := [] } := by
      unfold ExecuteModel
      rw [hmw]
    rw [hE]
    refine ⟨rfl, by simp, by simp, ?_, ?_, ?_⟩
    · intro e2 he2
      injection he2 with he3
      subst he3
      exact ⟨rfl, rfl, rfl⟩
    · intro e2 he2
      exact absurd he2 (by simp)
    · intro objs he2
      exact absurd he2 (by simp)
  | ok u =>
    cases u
    cases happ : applyRes with
    | error e =>
      have hE : ExecuteModel s mw (Except.error e) =
          { mwCalls := [(executeSortkeyPos s, s.blockMaxRows)], applyCalls := 1,
            loggedPhase := some ("2-HandleMergeEntryInTxn", e), retErr := some e,
            createdBObjs := [] } := by
        unfold ExecuteModel
        rw [hmw]
      rw [hE]
      refine ⟨rfl, by simp, fun _ => rfl, ?_, ?_, ?_⟩
      · intro e2 he2
        exact absurd he2 (by simp)
      · intro e2 _ he3
        injection he3 with he4
        subst he4
        exact ⟨rfl, rfl, rfl⟩
      · intro objs _ he3
        exact absurd he3 (by simp)
    | ok objs =>
      have hE : ExecuteModel s mw (Except.ok objs) =
          { mwCalls := [(executeSortkeyPos s, s.blockMaxRows)], applyCalls := 1,
            loggedPhase := none, retErr := none, createdBObjs := objs } := by
        unfold ExecuteModel
        rw [hmw]
      rw [hE]
      refine ⟨rfl, by simp, fun _ => rfl, ?_, ?_, ?_⟩
      · intro e2 he2
        exact absurd he2 (by simp)
      · intro e2 _ he3
        exact absurd he3 (by simp)
      · intro objs2 _ he3
        injection he3 with he4
        subst he4
        exact ⟨rfl, rfl, rfl⟩

/-! ## Catalog-apply characterization -/

/-- Apply the effects of a list of operations unconditionally, without
tracing (the trace is reconstructed separately). -/
def applyEff (b : Option Nat) (ops : List CatOp) (st : ApplyState) : ApplyState :=
  ops.foldl (fun s op => opEffect b op s) st

theorem opEffect_trace (b : Option Nat) (op : CatOp) (st : ApplyState) :
    (opEffect b op st).trace = st.trace := by
  cases op <;> rfl

theorem opEffect_withTrace (b : Option Nat) (op : CatOp) (st : ApplyState) (t : List CatOp) :
    opEffect b op { st with trace := t } = { opEffect b op st with trace := t } := by
  cases op <;> rfl

theorem applyEff_withTrace (b : Option Nat) (ops : List CatOp) (st : ApplyState)
    (t : List CatOp) :
    applyEff b ops { st with trace := t } = { applyEff b ops st with trace := t } := by
  induction ops generalizing st with
  | nil => rfl
  | cons op rest ih =>
    simp only [applyEff, List.foldl_cons] at *
    rw [opEffect_withTrace, ih]

theorem applyEff_append (b : Option Nat) (l1 l2 : List CatOp) (st : ApplyState) :
    applyEff b (l1 ++ l2) st = applyEff b l2 (applyEff b l1 st) := by
  simp [applyEff, List.foldl_append]

theorem runOps_ok (env : Nat → Option MergeError) (txn : TxnModel) (entry : MergeCommitEntry) :
    ∀ (ops : List CatOp) (st st' : ApplyState),
      runOps env txn entry ops st = (none, st') →
      st' = { applyEff entry.booking ops st with trace := st.trace ++ ops } := by
  intro ops
  induction ops with
  | nil =>
    intro st st' h
    simp only [runOps, Prod.mk.injEq] at h
    rw [← h.2]
    simp [applyEff]
  | cons op rest ih =>
    intro st st' h
    unfold runOps at h
    dsimp only at h
    cases hc : stopCheck env txn entry st.trace.length op with
    | some e => rw [hc] at h; simp at h
    | none =>
      rw [hc] at h
      have := ih _ _ h
      rw [this, opEffect_withTrace, applyEff_withTrace]
      simp [applyEff, List.foldl_cons]

theorem runOps_error (env : Nat → Option MergeError) (txn : TxnModel)
    (entry : MergeCommitEntry) :
    ∀ (ops : List CatOp) (st st' : ApplyState) (e : MergeError),
      runOps env txn entry ops st = (some e, st') →
      ∃ k, k < ops.length ∧
        (∀ k2, k2 < k →
          stopCheck env txn entry (st.trace.length + k2) (ops.getD k2 default) = none) ∧
        stopCheck env txn entry (st.trace.length + k) (ops.getD k default) = some e ∧
        st' = { applyEff entry.booking (ops.take k) st
                with trace := st.trace ++ ops.take (k + 1) } := by
  intro ops
  induction ops with
  | nil =>
    intro st st' e h
    simp [runOps] at h
  | cons op rest ih =>
    intro st st' e h
    unfold runOps at h
    dsimp only at h
    cases hc : stopCheck env txn entry st.trace.length op with
    | some e0 =>
      rw [hc] at h
      simp only [Prod.mk.injEq, Option.some.injEq] at h
      obtain ⟨he, hst⟩ := h
      subst he
      refine ⟨0, by simp, by omega, ?_, ?_⟩
      · simpa using hc
      · rw [← hst]
        rfl
    | none =>
      rw [hc] at h
      obtain ⟨k, hk, hpass, hfail, hst⟩ := ih _ _ _ h
      have htr : (opEffect entry.booking op
          { st with trace := st.trace ++ [op] }).trace = st.trace ++ [op] := by
        rw [opEffect_trace]
      refine ⟨k + 1, by simpa using Nat.succ_lt_succ hk, ?_, ?_, ?_⟩
      · intro k2 hk2
        cases k2 with
        | zero => simpa using hc
        | succ k3 =>
          have := hpass k3 (by omega)
          rw [htr] at this
          simp only [List.length_append, List.length_cons, List.length_nil] at this
          simpa [Nat.add_assoc, Nat.add_comm 1 k3] using this
      · rw [htr] at hfail
        simp only [List.length_append, List.length_cons, List.length_nil] at hfail
        simpa [Nat.add_assoc, Nat.add_comm 1 k] using hfail
      · rw [hst, htr]
        rw [opEffect_withTrace, applyEff_withTrace]
        simp [applyEff, List.foldl_cons]

/-- The merged-objects segment of the apply loop: record each meta and
soft-delete each source object, in order. -/
theorem applyEff_merged_seg (b : Option Nat) :
    ∀ (stats : List ObjectStats) (st : ApplyState),
      applyEff b (stats.flatMap
          (fun s => [CatOp.getObject s.objectID, CatOp.softDelete s.objectID])) st
        = { st with mergedMetas := st.mergedMetas ++ stats.map (fun s => s.objectID),
                    softDeleted := st.softDeleted ++ stats.map (fun s => s.objectID) } := by
  intro stats
  induction stats with
  | nil => intro st; simp [applyEff]
  | cons s rest ih =>
    intro st
    simp only [List.flatMap_cons, List.cons_append, List.nil_append]
    show applyEff b (CatOp.getObject s.objectID :: CatOp.softDelete s.objectID :: _) st = _
    simp only [applyEff, List.foldl_cons]
    have := ih (opEffect b (CatOp.softDelete s.objectID) (opEffect b (CatOp.getObject s.objectID) st))
    simp only [applyEff] at this
    rw [this]
    simp [opEffect]

theorem modifyLast_append {α : Type} (f : α → α) (l : List α) (a : α) :
    modifyLast f (l ++ [a]) = l ++ [f a] := by
  induction l with
  | nil => rfl
  | cons x xs ih =>
    cases xs with
    | nil => rfl
    | cons y ys => simpa [modifyLast] using ih

/-- The created-objects segment of the apply loop: each created
statistics entry yields one record with the predetermined identifier,
the statistics attached and the sorted flag set (unconditionally). -/
theorem applyEff_created_seg (b : Option Nat) :
    ∀ (stats : List ObjectStats) (st : ApplyState),
      applyEff b (stats.flatMap
          (fun s => [CatOp.createObj s.objectID, CatOp.updateStats s.objectID s,
                     CatOp.setSorted s.objectID])) st
        = { st with created := st.created ++
              stats.map (fun s => { id := s.objectID, stats := some s, sorted := true }) } := by
  intro stats
  induction stats with
  | nil => intro st; simp [applyEff]
  | cons s rest ih =>
    intro st
    simp only [List.flatMap_cons, List.cons_append, List.nil_append]
    show applyEff b (CatOp.createObj s.objectID :: CatOp.updateStats s.objectID s ::
        CatOp.setSorted s.objectID :: _) st = _
    simp only [applyEff, List.foldl_cons]
    have h3 : opEffect b (CatOp.setSorted s.objectID)
        (opEffect b (CatOp.updateStats s.objectID s) (opEffect b (CatOp.createObj s.objectID) st))
        = { st with created := st.created ++
              [{ id := s.objectID, stats := some s, sorted := true }] } := by
      simp [opEffect, modifyLast_append]
    rw [show List.foldl (fun s op => opEffect b op s)
          (opEffect b (CatOp.setSorted s.objectID)
            (opEffect b (CatOp.updateStats s.objectID s)
              (opEffect b (CatOp.createObj s.objectID) st)))
          (rest.flatMap (fun s => [CatOp.createObj s.objectID, CatOp.updateStats s.objectID s,
              CatOp.setSorted s.objectID]))
        = applyEff b (rest.flatMap (fun s => [CatOp.createObj s.objectID,
            CatOp.updateStats s.objectID s, CatOp.setSorted s.objectID]))
            ({ st with created := st.created ++
              [{ id := s.objectID, stats := some s, sorted := true }] }) from by rw [h3]; rfl]
    rw [ih]
    simp

/-- Full characterization of a successful catalog-apply run. -/
theorem HandleMerge_ok_char (env : Nat → Option MergeError) (txn : TxnModel)
    (entry : MergeCommitEntry) (recs : List CreatedObjRec) (st : ApplyState)
    (h : HandleMergeEntryInTxn env txn entry = (.ok recs, st)) :
    st.mergedMetas = entry.mergedObjs.map (fun s => s.objectID) ∧
    st.softDeleted = entry.mergedObjs.map (fun s => s.objectID) ∧
    st.created = entry.createdObjectStats.map
      (fun s => { id := s.objectID, stats := some s, sorted := true }) ∧
    st.logged = [{ dbID := entry.dbID, tableID := entry.tableID,
                   mergedIDs := entry.mergedObjs.map (fun s => s.objectID),
                   createdIDs := entry.createdObjectStats.map (fun s => s.objectID),
                   booking := entry.booking }] ∧
    recs = st.created ∧
    st.trace = opSeq entry := by
  unfold HandleMergeEntryInTxn at h
  cases hr : runOps env txn entry (opSeq entry) initApplyState with
  | mk res st2 =>
    cases res with
    | some e => rw [hr] at h; simp at h
    | none =>
      rw [hr] at h
      simp only [Prod.mk.injEq, Except.ok.injEq] at h
      obtain ⟨hrecs, hst⟩ := h
      subst hst
      have hchar := runOps_ok env txn entry (opSeq entry) initApplyState st2 hr
      have heff : applyEff entry.booking (opSeq entry) initApplyState =
          { trace := [],
            mergedMetas := entry.mergedObjs.map (fun s => s.objectID),
            softDeleted := entry.mergedObjs.map (fun s => s.objectID),
            created := entry.createdObjectStats.map
              (fun s => { id := s.objectID, stats := some s, sorted := true }),
            logged := [{ dbID := entry.dbID, tableID := entry.tableID,
                         mergedIDs := entry.mergedObjs.map (fun s => s.objectID),
                         createdIDs := entry.createdObjectStats.map (fun s => s.objectID),
                         booking := entry.booking }] } := by
        unfold opSeq
        rw [applyEff_append, applyEff_append, applyEff_append]
        rw [show applyEff entry.booking
            [CatOp.getDatabase entry.dbID, CatOp.getRelation entry.tableID] initApplyState
            = initApplyState from rfl]
        rw [applyEff_merged_seg, applyEff_created_seg]
        simp [applyEff, opEffect, initApplyState, List.map_map]
      rw [heff] at hchar
      subst hchar
      exact ⟨rfl, rfl, rfl, rfl, hrecs.symm, by simp [initApplyState]⟩

/-! ## Claims C2, C6, C7 -/

/-- Claim C2 (amended): in the catalog-apply phase every created object
is marked sorted unconditionally — `SetSorted` is called for each
created object regardless of whether the table has a sort key. -/
theorem C2_created_always_marked_sorted (env : Nat → Option MergeError) (txn : TxnModel)
    (entry : MergeCommitEntry) (recs : List CreatedObjRec) (st : ApplyState)
    (h : HandleMergeEntryInTxn env txn entry = (.ok recs, st)) :
    ∀ r ∈ recs, r.sorted = true := by
  obtain ⟨-, -, h3, -, h5, -⟩ := HandleMerge_ok_char env txn entry recs st h
  intro r hr
  rw [h5, h3] at hr
  obtain ⟨s, _, hrs⟩ := List.mem_map.mp hr
  rw [← hrs]

/-- Claim C6: on a successful catalog-apply every source object of the
commit entry is soft-deleted (in order), one created-object record
exists per created-statistics entry carrying the predetermined
identifier and the attached statistics, and exactly one log entry is
appended, scoped by (database id, table id), recording the old-to-new
transition and the booking map. -/
theorem C6_catalog_apply_success (env : Nat → Option MergeError) (txn : TxnModel)
    (entry : MergeCommitEntry) (recs : List CreatedObjRec) (st : ApplyState)
    (h : HandleMergeEntryInTxn env txn entry = (.ok recs, st)) :
    st.softDeleted = entry.mergedObjs.map (fun s => s.objectID) ∧
    recs = entry.createdObjectStats.map
      (fun s => { id := s.objectID, stats := some s, sorted := true }) ∧
    st.logged = [{ dbID := entry.dbID, tableID := entry.tableID,
                   mergedIDs := entry.mergedObjs.map (fun s => s.objectID),
                   createdIDs := entry.createdObjectStats.map (fun s => s.objectID),
                   booking := entry.booking }] := by
  obtain ⟨-, h2, h3, h4, h5, -⟩ := HandleMerge_ok_char env txn entry recs st h
  exact ⟨h2, by rw [h5, h3], h4⟩

/-- Claim C7: if any operation of the catalog-apply sequence fails, the
whole call returns that error with no created-object handles; the
operation trace is exactly the prefix of the sequence up to and
including the first failing operation (nothing further is attempted),
and the resulting state is exactly the effects of the operations before
the failure — no rollback of its own. -/
theorem C7_catalog_apply_failure_aborts (env : Nat → Option MergeError) (txn : TxnModel)
    (entry : MergeCommitEntry) (e : MergeError) (st : ApplyState)
    (h : HandleMergeEntryInTxn env txn entry = (.error e, st)) :
    ∃ k, k < (opSeq entry).length ∧
      (∀ k2, k2 < k → stopCheck env txn entry k2 ((opSeq entry).getD k2 default) = none) ∧
      stopCheck env txn entry k ((opSeq entry).getD k default) = some e ∧
      st.trace = (opSeq entry).take (k + 1) ∧
      st = { applyEff entry.booking ((opSeq entry).take k) initApplyState
             with trace := (opSeq entry).take (k + 1) } := by
  unfold HandleMergeEntryInTxn at h
  cases hr : runOps env txn entry (opSeq entry) initApplyState with
  | mk res st2 =>
    cases res with
    | none => rw [hr] at h; simp at h
    | some e2 =>
      rw [hr] at h
      simp only [Prod.mk.injEq, Except.error.injEq] at h
      obtain ⟨he, hst⟩ := h
      subst he
      subst hst
      obtain ⟨k, hk, hpass, hfail, hchar⟩ :=
        runOps_error env txn entry (opSeq entry) initApplyState st2 _ hr
      refine ⟨k, hk, ?_, ?_, ?_, ?_⟩
      · intro k2 hk2
        simpa [initApplyState] using hpass k2 hk2
      · simpa [initApplyState] using hfail
      · rw [hchar]
        simp [initApplyState]
      · rw [hchar]
        simp [initApplyState]

/-! ## Concrete fixtures for counterexamples and witnesses -/

/-- A schema with no sort key. -/
def schemaNoSK : Schema :=
  { name := "t2", version := 1, blockMaxRows := 10,
    colDefs := [{ name := "a", idx := 0, seqNum := 0, isPhyAddr := false }],
    sortKey := none }

def objC2 : ObjectEntry :=
  { id := 21, dbID := 8, tableID := 4, blockCnt := 1,
    stats := { objectID := 21, rowCnt := 10 } }

def relC2 : Relation := { id := 4, schema := schemaNoSK, objects := [objC2] }

def txnC2 : TxnModel := { startTS := 1, databases := [{ id := 8, relations := [relC2] }] }

def entryC2 : MergeCommitEntry :=
  { dbID := 8, tableID := 4, tablename := "t2", startTS := 1,
    mergedObjs := [{ objectID := 21, rowCnt := 10 }],
    createdObjectStats := [{ objectID := 35, rowCnt := 10 }],
    booking := none }

/-- The state after a fully successful apply of `entryC2`. -/
def stC6 : ApplyState :=
  { trace := opSeq entryC2, mergedMetas := [21], softDeleted := [21],
    created := [{ id := 35, stats := some { objectID := 35, rowCnt := 10 }, sorted := true }],
    logged := [{ dbID := 8, tableID := 4, mergedIDs := [21], createdIDs := [35],
                 booking := none }] }

/-- An environment injecting a failure at the fourth attempted
operation (the soft-delete of object 21). -/
def envC7 : Nat → Option MergeError := fun k => if k = 3 then some (.injected 9) else none

/-- The state reached when the soft-delete of object 21 fails. -/
def stC7 : ApplyState :=
  { trace := [CatOp.getDatabase 8, CatOp.getRelation 4, CatOp.getObject 21,
              CatOp.softDelete 21],
    mergedMetas := [21], softDeleted := [], created := [], logged := [] }

/-- Claim C2 (counterexample): a table with no sort key whose merge is
applied still gets its created object marked sorted, refuting "when the
table has no sort key, created objects are not marked sorted". -/
theorem C2_counterexample :
    applyRel txnC2 entryC2 = some relC2 ∧
    relC2.schema.HasSortKey = false ∧
    (HandleMergeEntryInTxn noFail txnC2 entryC2).1 =
      .ok [{ id := 35, stats := some { objectID := 35, rowCnt := 10 }, sorted := true }] :=
  ⟨rfl, rfl, rfl⟩

/-- Witness for C2: the concrete created object of the no-sort-key run
has its sorted flag set. -/
theorem C2_witness :
    ({ id := 35, stats := some { objectID := 35, rowCnt := 10 },
       sorted := true } : CreatedObjRec).sorted = true :=
  C2_created_always_marked_sorted noFail txnC2 entryC2
    [{ id := 35, stats := some { objectID := 35, rowCnt := 10 }, sorted := true }] stC6
    (by rfl) _ (by simp)

/-- Witness for C6 at the concrete fixture. -/
theorem C6_witness :
    stC6.softDeleted = entryC2.mergedObjs.map (fun s => s.objectID) ∧
    [{ id := 35, stats := some { objectID := 35, rowCnt := 10 },
       sorted := true }] = entryC2.createdObjectStats.map
      (fun s => ({ id := s.objectID, stats := some s, sorted := true } : CreatedObjRec)) ∧
    stC6.logged = [{ dbID := entryC2.dbID, tableID := entryC2.tableID,
                     mergedIDs := entryC2.mergedObjs.map (fun s => s.objectID),
                     createdIDs := entryC2.createdObjectStats.map (fun s => s.objectID),
                     booking := entryC2.booking }] :=
  C6_catalog_apply_success noFail txnC2 entryC2
    [{ id := 35, stats := some { objectID := 35, rowCnt := 10 }, sorted := true }] stC6
    (by rfl)

/-- Witness for C7 at the concrete fixture: the injected soft-delete
failure aborts the run right there. -/
theorem C7_witness :
    ∃ k, k < (opSeq entryC2).length ∧
      (∀ k2, k2 < k →
        stopCheck envC7 txnC2 entryC2 k2 ((opSeq entryC2).getD k2 default) = none) ∧
      stopCheck envC7 txnC2 entryC2 k ((opSeq entryC2).getD k default) =
        some (.injected 9) ∧
      stC7.trace = (opSeq entryC2).take (k + 1) ∧
      stC7 = { applyEff entryC2.booking ((opSeq entryC2).take k) initApplyState
               with trace := (opSeq entryC2).take (k + 1) } :=
  C7_catalog_apply_failure_aborts envC7 txnC2 entryC2 (.injected 9) stC7 (by rfl)

/-! ## Claim C10 -/

/-- Claim C10: on successful construction the task's database id and
table id come from the first source object's table, the relation is
resolved through that database and table id, every source object's
handle is resolved against that single relation, and the commit entry
carries exactly those ids. -/
theorem C10_identity_from_first_object (txn : TxnModel) (m0 : ObjectEntry)
    (rest : List ObjectEntry) (task : MergeTaskState) (tr : List CatAccess)
    (h : NewMergeObjectsTask txn (m0 :: rest) = (.ok task, tr)) :
    task.did = m0.dbID ∧ task.tid = m0.tableID ∧
    (∃ db, txn.GetDatabaseByID m0.dbID = .ok db ∧
      db.GetRelationByID m0.tableID = .ok task.rel) ∧
    List.Forall₂ (fun m hdl => task.rel.GetObject m.id = .ok hdl)
      (m0 :: rest) task.mergedObjsHandle ∧
    (PrepareCommitEntry task).dbID = m0.dbID ∧
    (PrepareCommitEntry task).tableID = m0.tableID := by
  obtain ⟨_, _, _, _, hall, m0', rest', heq, hdid, htid, db, hdb, hrel⟩ :=
    NewTask_ok_fields txn (m0 :: rest) task tr h
  cases heq
  exact ⟨hdid, htid, ⟨db, hdb, hrel⟩, hall, hdid, htid⟩

/-! ## Canonical shapes of the read phase -/

/-- The canonical run of views for blocks `j, j+1, ..., j+n-1` of one
object, all successfully read. -/
def someSeg (Wf : Nat → BlockViewModel) (j : Nat) : Nat → List (Option BlockViewModel)
  | 0 => []
  | n + 1 => some (Wf j) :: someSeg Wf (j + 1) n

/-- The canonical full view array: one `someSeg` per source object, in
object order (`cnts` are the block counts, `i0` the first object
index). -/
def canonViews (V : Nat → Nat → BlockViewModel) : List Nat → Nat → List (Option BlockViewModel)
  | [], _ => []
  | c :: rest, i0 => someSeg (V i0) 0 c ++ canonViews V rest (i0 + 1)

/-- The canonical batches for blocks `j .. j+n-1` of one object. -/
def batchSeg (attrs : List String) (Wf : Nat → BlockViewModel) (j : Nat) : Nat → List BatchModel
  | 0 => []
  | n + 1 =>
    { attrs := attrs, vecs := (Wf j).columns,
      rowCount := ((Wf j).columns.headD default).colLen } :: batchSeg attrs Wf (j + 1) n

/-- The canonical batch list over all source objects. -/
def canonBatches (attrs : List String) (V : Nat → Nat → BlockViewModel) :
    List Nat → Nat → List BatchModel
  | [], _ => []
  | c :: rest, i0 => batchSeg attrs (V i0) 0 c ++ canonBatches attrs V rest (i0 + 1)

/-- The canonical delete masks for blocks `j .. j+n-1` of one object. -/
def delSeg (Wf : Nat → BlockViewModel) (j : Nat) : Nat → List (List Nat)
  | 0 => []
  | n + 1 => (Wf j).deleteMask :: delSeg Wf (j + 1) n

/-- The canonical delete-mask list over all source objects. -/
def canonDels (V : Nat → Nat → BlockViewModel) : List Nat → Nat → List (List Nat)
  | [], _ => []
  | c :: rest, i0 => delSeg (V i0) 0 c ++ canonDels V rest (i0 + 1)

theorem someSeg_length (Wf : Nat → BlockViewModel) : ∀ (n j : Nat), (someSeg Wf j n).length = n := by
  intro n
  induction n with
  | zero => intro j; rfl
  | succ n ih => intro j; simp [someSeg, ih]

theorem batchSeg_length (attrs : List String) (Wf : Nat → BlockViewModel) :
    ∀ (n j : Nat), (batchSeg attrs Wf j n).length = n := by
  intro n
  induction n with
  | zero => intro j; rfl
  | succ n ih => intro j; simp [batchSeg, ih]

theorem delSeg_length (Wf : Nat → BlockViewModel) : ∀ (n j : Nat), (delSeg Wf j n).length = n := by
  intro n
  induction n with
  | zero => intro j; rfl
  | succ n ih => intro j; simp [delSeg, ih]

theorem sumBlk_append (l1 l2 : List ObjectEntry) :
    sumBlk (l1 ++ l2) = sumBlk l1 + sumBlk l2 := by
  simp [sumBlk]

theorem sumBlk_take_le (l : List ObjectEntry) (k : Nat) : sumBlk (l.take k) ≤ sumBlk l := by
  conv_rhs => rw [← List.take_append_drop k l]
  rw [sumBlk_append]
  omega

theorem sumBlk_take_succ : ∀ (l : List ObjectEntry) (i : Nat), i < l.length →
    sumBlk (l.take (i + 1)) = sumBlk (l.take i) + (l.getD i default).blockCnt := by
  intro l
  induction l with
  | nil => intro i h; simp at h
  | cons o rest ih =>
    intro i h
    cases i with
    | zero => simp [sumBlk]
    | succ i2 =>
      simp only [List.take_succ_cons, sumBlk, List.map_cons, List.sum_cons, List.getD_cons_succ]
      have := ih i2 (by simpa using h)
      simp only [sumBlk] at this
      omega

theorem canonViews_length (V : Nat → Nat → BlockViewModel) :
    ∀ (cnts : List Nat) (i0 : Nat), (canonViews V cnts i0).length = cnts.sum := by
  intro cnts
  induction cnts with
  | nil => intro i0; rfl
  | cons c rest ih => intro i0; simp [canonViews, someSeg_length, ih]

theorem canonBatches_length (attrs : List String) (V : Nat → Nat → BlockViewModel) :
    ∀ (cnts : List Nat) (i0 : Nat), (canonBatches attrs V cnts i0).length = cnts.sum := by
  intro cnts
  induction cnts with
  | nil => intro i0; rfl
  | cons c rest ih => intro i0; simp [canonBatches, batchSeg_length, ih]

theorem canonDels_length (V : Nat → Nat → BlockViewModel) :
    ∀ (cnts : List Nat) (i0 : Nat), (canonDels V cnts i0).length = cnts.sum := by
  intro cnts
  induction cnts with
  | nil => intro i0; rfl
  | cons c rest ih => intro i0; simp [canonDels, delSeg_length, ih]

theorem someSeg_isSome (Wf : Nat → BlockViewModel) :
    ∀ (n j : Nat), ∀ x ∈ someSeg Wf j n, x.isSome := by
  intro n
  induction n with
  | zero => intro j x hx; simp [someSeg] at hx
  | succ n ih =>
    intro j x hx
    simp only [someSeg, List.mem_cons] at hx
    cases hx with
    | inl h => rw [h]; rfl
    | inr h => exact ih (j + 1) x h

theorem canonViews_isSome (V : Nat → Nat → BlockViewModel) :
    ∀ (cnts : List Nat) (i0 : Nat), ∀ x ∈ canonViews V cnts i0, x.isSome := by
  intro cnts
  induction cnts with
  | nil => intro i0 x hx; simp [canonViews] at hx
  | cons c rest ih =>
    intro i0 x hx
    simp only [canonViews, List.mem_append] at hx
    cases hx with
    | inl h => exact someSeg_isSome (V i0) c 0 x h
    | inr h => exact ih (i0 + 1) x h

theorem mem_someSeg (Wf : Nat → BlockViewModel) :
    ∀ (n j0 j : Nat), j0 ≤ j → j < j0 + n → some (Wf j) ∈ someSeg Wf j0 n := by
  intro n
  induction n with
  | zero => intro j0 j h1 h2; omega
  | succ n ih =>
    intro j0 j h1 h2
    rcases Nat.eq_or_lt_of_le h1 with h | h
    · subst h
      simp [someSeg]
    · simp only [someSeg, List.mem_cons]
      right
      exact ih (j0 + 1) j h (by omega)

theorem mem_canonViews (V : Nat → Nat → BlockViewModel) :
    ∀ (cnts : List Nat) (i0 k j : Nat), k < cnts.length → j < cnts.getD k 0 →
      some (V (i0 + k) j) ∈ canonViews V cnts i0 := by
  intro cnts
  induction cnts with
  | nil => intro i0 k j hk hj; simp at hk
  | cons c rest ih =>
    intro i0 k j hk hj
    simp only [canonViews, List.mem_append]
    cases k with
    | zero =>
      left
      simpa using mem_someSeg (V i0) c 0 j (Nat.zero_le j) (by simpa using hj)
    | succ k2 =>
      right
      have := ih (i0 + 1) k2 j (by simpa using hk) (by simpa using hj)
      simpa [Nat.add_assoc, Nat.add_comm 1 k2] using this

theorem getD_eq_get {α : Type} [Inhabited α] :
    ∀ (l : List α) (n : Nat) (h : n < l.length), l.getD n default = l.get ⟨n, h⟩ := by
  intro l
  induction l with
  | nil => intro n h; simp at h
  | cons a as ih =>
    intro n h
    cases n with
    | zero => rfl
    | succ n2 => exact ih n2 (by simpa using h)

theorem set_append_len {α : Type} :
    ∀ (A t : List α) (v : α), (A ++ t).set A.length v = A ++ t.set 0 v := by
  intro A
  induction A with
  | nil => intro t v; rfl
  | cons a as ih => intro t v; simp only [List.cons_append, List.length_cons, List.set_cons_succ]; rw [ih]

theorem baseOffsets_length : ∀ (objs : List ObjectEntry) (t : Nat),
    (baseOffsets t objs).length = objs.length := by
  intro objs
  induction objs with
  | nil => intro t; rfl
  | cons o rest ih => intro t; simp [baseOffsets, ih]

theorem baseOffsets_getD : ∀ (objs : List ObjectEntry) (t i : Nat), i < objs.length →
    (baseOffsets t objs).getD i 0 = t + sumBlk (objs.take i) := by
  intro objs
  induction objs with
  | nil => intro t i h; simp at h
  | cons o rest ih =>
    intro t i h
    cases i with
    | zero => simp [baseOffsets, sumBlk]
    | succ i2 =>
      simp only [baseOffsets, List.getD_cons_succ, List.take_succ_cons, sumBlk, List.map_cons,
        List.sum_cons]
      have := ih (t + o.blockCnt) i2 (by simpa using h)
      simp only [sumBlk] at this
      omega

/-! ## Read-loop characterization -/

theorem readBlocksLoop_ok (reader : ReaderFn) (idxs : List Nat) (obj : ObjectEntry)
    (minOff cnt : Nat) (W : Nat → BlockViewModel) :
    ∀ (n j : Nat) (A : List (Option BlockViewModel)) (m : Nat),
      n = cnt - j →
      A.length = minOff + j →
      cnt - j ≤ m →
      (∀ j2, j ≤ j2 → j2 < cnt → reader obj j2 idxs = .ok (W j2)) →
      readBlocksLoop reader idxs obj minOff j cnt (A ++ List.replicate m none)
        = (none, A ++ someSeg W j (cnt - j) ++ List.replicate (m - (cnt - j)) none) := by
  intro n
  induction n with
  | zero =>
    intro j A m hn hA hm hr
    have hj : ¬ j < cnt := by omega
    unfold readBlocksLoop
    rw [if_neg hj]
    have h0 : cnt - j = 0 := by omega
    rw [h0]
    simp [someSeg]
  | succ n ih =>
    intro j A m hn hA hm hr
    have hj : j < cnt := by omega
    unfold readBlocksLoop
    rw [if_pos hj, hr j le_rfl hj]
    dsimp only
    obtain ⟨m2, rfl⟩ : ∃ m2, m = m2 + 1 := ⟨m - 1, by omega⟩
    rw [show (List.replicate (m2 + 1) (none : Option BlockViewModel))
        = none :: List.replicate m2 none from rfl]
    rw [show minOff + j = A.length from hA.symm]
    rw [set_append_len]
    rw [show (none :: List.replicate m2 (none : Option BlockViewModel)).set 0 (some (W j))
        = some (W j) :: List.replicate m2 none from rfl]
    rw [show A ++ some (W j) :: List.replicate m2 (none : Option BlockViewModel)
        = (A ++ [some (W j)]) ++ List.replicate m2 none from by simp]
    rw [ih (j + 1) (A ++ [some (W j)]) m2 (by omega)
        (by simp [hA, Nat.add_assoc]) (by omega)
        (fun j2 h1 h2 => hr j2 (by omega) h2)]
    have hseg : someSeg W j (cnt - j) = some (W j) :: someSeg W (j + 1) (cnt - (j + 1)) := by
      have h2 : cnt - j = (cnt - (j + 1)) + 1 := by omega
      rw [h2]
      rfl
    rw [hseg]
    have hrep : m2 - (cnt - (j + 1)) = m2 + 1 - (cnt - j) := by omega
    rw [hrep]
    simp

theorem readBlocksLoop_fail (reader : ReaderFn) (idxs : List Nat) (obj : ObjectEntry)
    (minOff cnt : Nat) (W : Nat → BlockViewModel) (jf : Nat) (e : MergeError) :
    ∀ (n j : Nat) (A : List (Option BlockViewModel)) (m : Nat),
      n = jf - j →
      j ≤ jf → jf < cnt →
      A.length = minOff + j →
      jf - j ≤ m →
      (∀ j2, j ≤ j2 → j2 < jf → reader obj j2 idxs = .ok (W j2)) →
      reader obj jf idxs = .error e →
      readBlocksLoop reader idxs obj minOff j cnt (A ++ List.replicate m none)
        = (some e, A ++ someSeg W j (jf - j) ++ List.replicate (m - (jf - j)) none) := by
  intro n
  induction n with
  | zero =>
    intro j A m hn hj hjf hA hm hr hfail
    have hje : j = jf := by omega
    subst hje
    unfold readBlocksLoop
    rw [if_pos hjf, hfail]
    simp [someSeg]
  | succ n ih =>
    intro j A m hn hj hjf hA hm hr hfail
    have hjlt : j < jf := by omega
    unfold readBlocksLoop
    rw [if_pos (show j < cnt by omega), hr j le_rfl hjlt]
    dsimp only
    obtain ⟨m2, rfl⟩ : ∃ m2, m = m2 + 1 := ⟨m - 1, by omega⟩
    rw [show (List.replicate (m2 + 1) (none : Option BlockViewModel))
        = none :: List.replicate m2 none from rfl]
    rw [show minOff + j = A.length from hA.symm]
    rw [set_append_len]
    rw [show (none :: List.replicate m2 (none : Option BlockViewModel)).set 0 (some (W j))
        = some (W j) :: List.replicate m2 none from rfl]
    rw [show A ++ some (W j) :: List.replicate m2 (none : Option BlockViewModel)
        = (A ++ [some (W j)]) ++ List.replicate m2 none from by simp]
    rw [ih (j + 1) (A ++ [some (W j)]) m2 (by omega) (by omega) hjf
        (by simp [hA, Nat.add_assoc]) (by omega)
        (fun j2 h1 h2 => hr j2 (by omega) h2) hfail]
    have hseg : someSeg W j (jf - j) = some (W j) :: someSeg W (j + 1) (jf - (j + 1)) := by
      have h2 : jf - j = (jf - (j + 1)) + 1 := by omega
      rw [h2]
      rfl
    rw [hseg]
    have hrep : m2 - (jf - (j + 1)) = m2 + 1 - (jf - j) := by omega
    rw [hrep]
    simp

theorem drop_cons_getD {α : Type} [Inhabited α] : ∀ (l : List α) (i : Nat), i < l.length →
    l.drop i = l.getD i default :: l.drop (i + 1) := by
  intro l
  induction l with
  | nil => intro i h; simp at h
  | cons a as ih =>
    intro i h
    cases i with
    | zero => rfl
    | succ i2 => simpa using ih i2 (by simpa using h)

/-- The per-iteration block count of the outer read loop equals the
current object's block count when the offsets come from the
constructor. -/
theorem loop_cnt (objs : List ObjectEntry) (i : Nat) (hi : i < objs.length) :
    ((if i = objs.length - 1 then sumBlk objs else (baseOffsets 0 objs).getD (i + 1) 0)
      - (baseOffsets 0 objs).getD i 0) = (objs.getD i default).blockCnt := by
  rw [baseOffsets_getD objs 0 i hi]
  by_cases hlast : i = objs.length - 1
  · rw [if_pos hlast]
    have h1 : sumBlk objs = sumBlk (objs.take (i + 1)) := by
      have h2 : i + 1 = objs.length := by omega
      rw [h2, List.take_length]
    rw [h1, sumBlk_take_succ objs i hi]
    omega
  · rw [if_neg hlast]
    have hi1 : i + 1 < objs.length := by omega
    rw [baseOffsets_getD objs 0 (i + 1) hi1, sumBlk_take_succ objs i hi]
    omega

theorem readObjsLoop_body_ok (task : MergeTaskState) (reader : ReaderFn) (idxs : List Nat)
    (V : Nat → Nat → BlockViewModel)
    (hbc : task.mergedBlkCnt = baseOffsets 0 task.mergedObjs)
    (htot : task.totalMergedBlkCnt = sumBlk task.mergedObjs)
    (i : Nat) (A : List (Option BlockViewModel))
    (hilt : i < task.mergedObjs.length)
    (hA : A.length = sumBlk (task.mergedObjs.take i))
    (hreads : ∀ j2, j2 < (task.mergedObjs.getD i default).blockCnt →
      reader (task.mergedObjsHandle.getD i default) j2 idxs = .ok (V i j2)) :
    readBlocksLoop reader idxs (task.mergedObjsHandle.getD i default)
      (task.mergedBlkCnt.getD i 0) 0
      ((if i = task.mergedObjs.length - 1 then task.totalMergedBlkCnt
        else task.mergedBlkCnt.getD (i + 1) 0) - task.mergedBlkCnt.getD i 0)
      (A ++ List.replicate (task.totalMergedBlkCnt - A.length) none)
    = (none, (A ++ someSeg (V i) 0 ((task.mergedObjs.getD i default).blockCnt))
        ++ List.replicate (task.totalMergedBlkCnt - A.length
            - (task.mergedObjs.getD i default).blockCnt) none) := by
  have hcnt : ((if i = task.mergedObjs.length - 1 then task.totalMergedBlkCnt
      else task.mergedBlkCnt.getD (i + 1) 0) - task.mergedBlkCnt.getD i 0)
      = (task.mergedObjs.getD i default).blockCnt := by
    rw [hbc, htot]
    exact loop_cnt task.mergedObjs i hilt
  have hmin : task.mergedBlkCnt.getD i 0 = sumBlk (task.mergedObjs.take i) := by
    rw [hbc, baseOffsets_getD task.mergedObjs 0 i hilt]
    omega
  rw [hcnt, hmin]
  have hle : (task.mergedObjs.getD i default).blockCnt
      ≤ task.totalMergedBlkCnt - A.length := by
    rw [htot, hA]
    have h1 := sumBlk_take_succ task.mergedObjs i hilt
    have h2 := sumBlk_take_le task.mergedObjs (i + 1)
    omega
  have := readBlocksLoop_ok reader idxs (task.mergedObjsHandle.getD i default)
    (sumBlk (task.mergedObjs.take i)) ((task.mergedObjs.getD i default).blockCnt) (V i)
    ((task.mergedObjs.getD i default).blockCnt) 0 A
    (task.totalMergedBlkCnt - A.length) (by omega) (by omega) (by omega)
    (fun j2 h1 h2 => hreads j2 h2)
  simpa using this

theorem readObjsLoop_body_fail (task : MergeTaskState) (reader : ReaderFn) (idxs : List Nat)
    (V : Nat → Nat → BlockViewModel) (fj : Nat) (e : MergeError)
    (hbc : task.mergedBlkCnt = baseOffsets 0 task.mergedObjs)
    (htot : task.totalMergedBlkCnt = sumBlk task.mergedObjs)
    (i : Nat) (A : List (Option BlockViewModel))
    (hilt : i < task.mergedObjs.length)
    (hA : A.length = sumBlk (task.mergedObjs.take i))
    (hfj : fj < (task.mergedObjs.getD i default).blockCnt)
    (hreads : ∀ j2, j2 < fj →
      reader (task.mergedObjsHandle.getD i default) j2 idxs = .ok (V i j2))
    (hfail : reader (task.mergedObjsHandle.getD i default) fj idxs = .error e) :
    readBlocksLoop reader idxs (task.mergedObjsHandle.getD i default)
      (task.mergedBlkCnt.getD i 0) 0
      ((if i = task.mergedObjs.length - 1 then task.totalMergedBlkCnt
        else task.mergedBlkCnt.getD (i + 1) 0) - task.mergedBlkCnt.getD i 0)
      (A ++ List.replicate (task.totalMergedBlkCnt - A.length) none)
    = (some e, (A ++ someSeg (V i) 0 fj)
        ++ List.replicate (task.totalMergedBlkCnt - A.length - fj) none) := by
  have hcnt : ((if i = task.mergedObjs.length - 1 then task.totalMergedBlkCnt
      else task.mergedBlkCnt.getD (i + 1) 0) - task.mergedBlkCnt.getD i 0)
      = (task.mergedObjs.getD i default).blockCnt := by
    rw [hbc, htot]
    exact loop_cnt task.mergedObjs i hilt
  have hmin : task.mergedBlkCnt.getD i 0 = sumBlk (task.mergedObjs.take i) := by
    rw [hbc, baseOffsets_getD task.mergedObjs 0 i hilt]
    omega
  rw [hcnt, hmin]
  have hle : (task.mergedObjs.getD i default).blockCnt
      ≤ task.totalMergedBlkCnt - A.length := by
    rw [htot, hA]
    have h1 := sumBlk_take_succ task.mergedObjs i hilt
    have h2 := sumBlk_take_le task.mergedObjs (i + 1)
    omega
  have := readBlocksLoop_fail reader idxs (task.mergedObjsHandle.getD i default)
    (sumBlk (task.mergedObjs.take i)) ((task.mergedObjs.getD i default).blockCnt) (V i)
    fj e fj 0 A (task.totalMergedBlkCnt - A.length) (by omega) (by omega) hfj (by omega)
    (by omega) (fun j2 h1 h2 => hreads j2 h2) hfail
  simpa using this

theorem readObjsLoop_ok (task : MergeTaskState) (reader : ReaderFn) (idxs : List Nat)
    (V : Nat → Nat → BlockViewModel)
    (hbc : task.mergedBlkCnt = baseOffsets 0 task.mergedObjs)
    (htot : task.totalMergedBlkCnt = sumBlk task.mergedObjs)
    (hlen : task.mergedObjsHandle.length = task.mergedObjs.length) :
    ∀ (n i : Nat) (A : List (Option BlockViewModel)),
      n = task.mergedObjs.length - i →
      i ≤ task.mergedObjs.length →
      A.length = sumBlk (task.mergedObjs.take i) →
      (∀ i2 j2, i ≤ i2 → i2 < task.mergedObjs.length →
        j2 < (task.mergedObjs.getD i2 default).blockCnt →
        reader (task.mergedObjsHandle.getD i2 default) j2 idxs = .ok (V i2 j2)) →
      readObjsLoop task reader idxs i
          (A ++ List.replicate (task.totalMergedBlkCnt - A.length) none)
        = (none, A ++ canonViews V ((task.mergedObjs.drop i).map (fun o => o.blockCnt)) i) := by
  intro n
  induction n with
  | zero =>
    intro i A hn hi hA hr
    have hieq : i = task.mergedObjs.length := by omega
    unfold readObjsLoop
    rw [dif_neg (show ¬ i < task.mergedObjsHandle.length by omega)]
    have hdrop : task.mergedObjs.drop i = [] := by
      rw [hieq]
      simp
    rw [hdrop]
    have hAl : task.totalMergedBlkCnt - A.length = 0 := by
      rw [htot, hA, hieq, List.take_length]
      omega
    rw [hAl]
    simp [canonViews]
  | succ n ih =>
    intro i A hn hi hA hr
    have hilt : i < task.mergedObjs.length := by omega
    unfold readObjsLoop
    rw [dif_pos (show i < task.mergedObjsHandle.length by omega)]
    dsimp only
    rw [readObjsLoop_body_ok task reader idxs V hbc htot i A hilt hA
      (fun j2 h2 => hr i j2 le_rfl hilt h2)]
    dsimp only
    have hAlen : (A ++ someSeg (V i) 0 ((task.mergedObjs.getD i default).blockCnt)).length
        = sumBlk (task.mergedObjs.take (i + 1)) := by
      rw [List.length_append, someSeg_length, hA, sumBlk_take_succ task.mergedObjs i hilt]
    rw [show task.totalMergedBlkCnt - A.length - (task.mergedObjs.getD i default).blockCnt
        = task.totalMergedBlkCnt
          - (A ++ someSeg (V i) 0 ((task.mergedObjs.getD i default).blockCnt)).length from by
      rw [List.length_append, someSeg_length]
      omega]
    rw [ih (i + 1) (A ++ someSeg (V i) 0 ((task.mergedObjs.getD i default).blockCnt))
      (by omega) (by omega) hAlen
      (fun i2 j2 h1 h2 h3 => hr i2 j2 (by omega) h2 h3)]
    rw [drop_cons_getD task.mergedObjs i hilt]
    simp [canonViews]

theorem readObjsLoop_fail (task : MergeTaskState) (reader : ReaderFn) (idxs : List Nat)
    (V : Nat → Nat → BlockViewModel) (fi fj : Nat) (e : MergeError)
    (hbc : task.mergedBlkCnt = baseOffsets 0 task.mergedObjs)
    (htot : task.totalMergedBlkCnt = sumBlk task.mergedObjs)
    (hlen : task.mergedObjsHandle.length = task.mergedObjs.length)
    (hfi : fi < task.mergedObjs.length)
    (hfj : fj < (task.mergedObjs.getD fi default).blockCnt)
    (hfail : reader (task.mergedObjsHandle.getD fi default) fj idxs = .error e) :
    ∀ (n i : Nat) (A : List (Option BlockViewModel)),
      n = fi - i →
      i ≤ fi →
      A.length = sumBlk (task.mergedObjs.take i) →
      (∀ i2 j2, i ≤ i2 → (i2 < fi ∨ (i2 = fi ∧ j2 < fj)) →
        i2 < task.mergedObjs.length →
        j2 < (task.mergedObjs.getD i2 default).blockCnt →
        reader (task.mergedObjsHandle.getD i2 default) j2 idxs = .ok (V i2 j2)) →
      readObjsLoop task reader idxs i
          (A ++ List.replicate (task.totalMergedBlkCnt - A.length) none)
        = (some e, (A ++ canonViews V (((task.mergedObjs.drop i).take (fi - i)).map
              (fun o => o.blockCnt)) i ++ someSeg (V fi) 0 fj)
            ++ List.replicate (task.totalMergedBlkCnt
                - sumBlk (task.mergedObjs.take fi) - fj) none) := by
  intro n
  induction n with
  | zero =>
    intro i A hn hi hA hr
    have hieq : i = fi := by omega
    subst hieq
    unfold readObjsLoop
    rw [dif_pos (show i < task.mergedObjsHandle.length by omega)]
    dsimp only
    rw [readObjsLoop_body_fail task reader idxs V fj e hbc htot i A hfi hA hfj
      (fun j2 h2 => hr i j2 le_rfl (Or.inr ⟨rfl, h2⟩) hfi (lt_trans h2 hfj)) hfail]
    dsimp only
    rw [hA]
    simp [canonViews]
  | succ n ih =>
    intro i A hn hi hA hr
    have hilt : i < fi := by omega
    have hiobj : i < task.mergedObjs.length := by omega
    unfold readObjsLoop
    rw [dif_pos (show i < task.mergedObjsHandle.length by omega)]
    dsimp only
    rw [readObjsLoop_body_ok task reader idxs V hbc htot i A hiobj hA
      (fun j2 h2 => hr i j2 le_rfl (Or.inl hilt) hiobj h2)]
    dsimp only
    have hAlen : (A ++ someSeg (V i) 0 ((task.mergedObjs.getD i default).blockCnt)).length
        = sumBlk (task.mergedObjs.take (i + 1)) := by
      rw [List.length_append, someSeg_length, hA, sumBlk_take_succ task.mergedObjs i hiobj]
    rw [show task.totalMergedBlkCnt - A.length - (task.mergedObjs.getD i default).blockCnt
        = task.totalMergedBlkCnt
          - (A ++ someSeg (V i) 0 ((task.mergedObjs.getD i default).blockCnt)).length from by
      rw [List.length_append, someSeg_length]
      omega]
    rw [ih (i + 1) (A ++ someSeg (V i) 0 ((task.mergedObjs.getD i default).blockCnt))
      (by omega) (by omega) hAlen
      (fun i2 j2 h1 h2 h3 h4 => hr i2 j2 (by omega) h2 h3 h4)]
    have hdt : (task.mergedObjs.drop i).take (fi - i)
        = task.mergedObjs.getD i default :: (task.mergedObjs.drop (i + 1)).take (fi - (i + 1)) := by
      rw [drop_cons_getD task.mergedObjs i hiobj]
      have h2 : fi - i = (fi - (i + 1)) + 1 := by omega
      rw [h2, List.take_succ_cons]
    rw [hdt]
    simp [canonViews]

/-! ## Batch-assembly and release characterization -/

theorem getD_append_left {α : Type} [Inhabited α] :
    ∀ (l1 l2 : List α) (n : Nat), n < l1.length →
      (l1 ++ l2).getD n default = l1.getD n default := by
  intro l1
  induction l1 with
  | nil => intro l2 n h; simp at h
  | cons a as ih =>
    intro l2 n h
    cases n with
    | zero => rfl
    | succ n2 => exact ih l2 n2 (by simpa using h)

theorem getD_append_right {α : Type} [Inhabited α] :
    ∀ (l1 l2 : List α) (n : Nat),
      (l1 ++ l2).getD (l1.length + n) default = l2.getD n default := by
  intro l1
  induction l1 with
  | nil => intro l2 n; simp
  | cons a as ih =>
    intro l2 n
    have h2 : (a :: as).length + n = ((as.length + n) + 1) := by
      simp
      omega
    rw [h2]
    simpa using ih l2 n

theorem map_blockCnt_getD : ∀ (objs : List ObjectEntry) (k : Nat), k < objs.length →
    (objs.map (fun o => o.blockCnt)).getD k 0 = (objs.getD k default).blockCnt := by
  intro objs
  induction objs with
  | nil => intro k h; simp at h
  | cons o rest ih =>
    intro k h
    cases k with
    | zero => rfl
    | succ k2 => exact ih k2 (by simpa using h)

theorem buildBatches_someSeg (attrs : List String) (Wf : Nat → BlockViewModel) :
    ∀ (n j : Nat),
      (∀ j2, j ≤ j2 → j2 < j + n →
        (Wf j2).columns.length = attrs.length ∧ (Wf j2).columns ≠ []) →
      buildBatches attrs (someSeg Wf j n) = .ok (batchSeg attrs Wf j n, delSeg Wf j n) := by
  intro n
  induction n with
  | zero => intro j h; rfl
  | succ n ih =>
    intro j h
    obtain ⟨hlen, hne⟩ := h j le_rfl (by omega)
    have hih := ih (j + 1) (fun j2 h1 h2 => h j2 (by omega) (by omega))
    show buildBatches attrs (some (Wf j) :: someSeg Wf (j + 1) n) = _
    unfold buildBatches
    rw [if_neg (by simp [hlen])]
    cases hcol : (Wf j).columns with
    | nil => exact absurd hcol hne
    | cons c0 cs =>
      simp only [List.head?_cons]
      rw [hih]
      simp [batchSeg, delSeg, hcol]

theorem buildBatches_append_ok_ok (attrs : List String) :
    ∀ (l1 l2 : List (Option BlockViewModel)) (b1 b2 : List BatchModel)
      (d1 d2 : List (List Nat)),
      buildBatches attrs l1 = .ok (b1, d1) →
      buildBatches attrs l2 = .ok (b2, d2) →
      buildBatches attrs (l1 ++ l2) = .ok (b1 ++ b2, d1 ++ d2) := by
  intro l1
  induction l1 with
  | nil =>
    intro l2 b1 b2 d1 d2 h1 h2
    simp only [buildBatches, Except.ok.injEq, Prod.mk.injEq] at h1
    obtain ⟨hb, hd⟩ := h1
    subst hb
    subst hd
    simpa using h2
  | cons x rest ih =>
    intro l2 b1 b2 d1 d2 h1 h2
    cases x with
    | none => simp [buildBatches] at h1
    | some v =>
      simp only [List.cons_append]
      unfold buildBatches at h1 ⊢
      by_cases hm : attrs.length ≠ v.columns.length
      · rw [if_pos hm] at h1
        simp at h1
      · rw [if_neg hm] at h1 ⊢
        cases hh : v.columns.head? with
        | none =>
          rw [hh] at h1
          simp at h1
        | some c0 =>
          rw [hh] at h1
          dsimp only at h1 ⊢
          cases hb : buildBatches attrs rest with
          | error k =>
            rw [hb] at h1
            simp at h1
          | ok p =>
            rcases p with ⟨bs, ds⟩
            rw [hb] at h1
            dsimp only at h1
            simp only [Except.ok.injEq, Prod.mk.injEq] at h1
            obtain ⟨hb1, hd1⟩ := h1
            rw [ih l2 bs b2 ds d2 hb h2]
            rw [← hb1, ← hd1]
            simp

theorem buildBatches_canon (attrs : List String) (V : Nat → Nat → BlockViewModel) :
    ∀ (cnts : List Nat) (i0 : Nat),
      (∀ k j2, k < cnts.length → j2 < cnts.getD k 0 →
        (V (i0 + k) j2).columns.length = attrs.length ∧ (V (i0 + k) j2).columns ≠ []) →
      buildBatches attrs (canonViews V cnts i0)
        = .ok (canonBatches attrs V cnts i0, canonDels V cnts i0) := by
  intro cnts
  induction cnts with
  | nil => intro i0 h; rfl
  | cons c rest ih =>
    intro i0 h
    show buildBatches attrs (someSeg (V i0) 0 c ++ canonViews V rest (i0 + 1)) = _
    have h1 := buildBatches_someSeg attrs (V i0) c 0 (fun j2 hj1 hj2 => by
      have := h 0 j2 (by simp) (by simpa using hj2)
      simpa using this)
    have h2 := ih (i0 + 1) (fun k j2 hk hj => by
      have := h (k + 1) j2 (by simpa using hk) (by simpa using hj)
      simpa [Nat.add_assoc, Nat.add_comm 1 k] using this)
    rw [buildBatches_append_ok_ok attrs _ _ _ _ _ _ h1 h2]
    rfl

theorem buildBatches_ok_no_mismatch (attrs : List String) :
    ∀ (l : List (Option BlockViewModel)) (b : List BatchModel) (d : List (List Nat)),
      buildBatches attrs l = .ok (b, d) →
      ∀ v, some v ∈ l → attrs.length = v.columns.length := by
  intro l
  induction l with
  | nil => intro b d h v hv; simp at hv
  | cons x rest ih =>
    intro b d h v hv
    cases x with
    | none => simp [buildBatches] at h
    | some v2 =>
      unfold buildBatches at h
      by_cases hm : attrs.length ≠ v2.columns.length
      · rw [if_pos hm] at h
        simp at h
      · rw [if_neg hm] at h
        cases hh : v2.columns.head? with
        | none =>
          rw [hh] at h
          simp at h
        | some c0 =>
          rw [hh] at h
          dsimp only at h
          cases hb : buildBatches attrs rest with
          | error k =>
            rw [hb] at h
            simp at h
          | ok p =>
            rcases p with ⟨bs, ds⟩
            rcases List.mem_cons.mp hv with heq | hmem
            · have hv2 : v = v2 := by
                injection heq
              rw [hv2]
              omega
            · exact ih bs ds hb v hmem

theorem buildBatches_error_of_mismatch (attrs : List String)
    (l : List (Option BlockViewModel)) (v : BlockViewModel) (hv : some v ∈ l)
    (hm : attrs.length ≠ v.columns.length) :
    ∃ k, buildBatches attrs l = .error k := by
  cases hb : buildBatches attrs l with
  | error k => exact ⟨k, rfl⟩
  | ok p =>
    rcases p with ⟨b, d⟩
    exact absurd (buildBatches_ok_no_mismatch attrs l b d hb v hv) hm

theorem buildBatches_ne_columnMismatch (attrs : List String) :
    ∀ (l : List (Option BlockViewModel)),
      (∀ v, some v ∈ l → attrs.length = v.columns.length) →
      ∀ k, buildBatches attrs l = .error k → k ≠ PanicKind.columnMismatch := by
  intro l
  induction l with
  | nil => intro h k hk; simp [buildBatches] at hk
  | cons x rest ih =>
    intro h k hk
    cases x with
    | none =>
      simp only [buildBatches, Except.error.injEq] at hk
      rw [← hk]
      intro hcontra
      cases hcontra
    | some v =>
      unfold buildBatches at hk
      rw [if_neg (by simp [h v (by simp)])] at hk
      cases hh : v.columns.head? with
      | none =>
        rw [hh] at hk
        dsimp only at hk
        simp only [Except.error.injEq] at hk
        rw [← hk]
        decide
      | some c0 =>
        rw [hh] at hk
        dsimp only at hk
        cases hb : buildBatches attrs rest with
        | error k2 =>
          rw [hb] at hk
          dsimp only at hk
          simp only [Except.error.injEq] at hk
          rw [← hk]
          exact ih (fun v2 hv2 => h v2 (by simp [hv2])) k2 hb
        | ok p =>
          rcases p with ⟨bs, ds⟩
          rw [hb] at hk
          simp at hk

theorem someSeg_mem_inv (Wf : Nat → BlockViewModel) :
    ∀ (n j0 : Nat) (x : Option BlockViewModel), x ∈ someSeg Wf j0 n →
      ∃ j, j0 ≤ j ∧ j < j0 + n ∧ x = some (Wf j) := by
  intro n
  induction n with
  | zero => intro j0 x hx; simp [someSeg] at hx
  | succ n ih =>
    intro j0 x hx
    simp only [someSeg, List.mem_cons] at hx
    cases hx with
    | inl h => exact ⟨j0, le_rfl, by omega, h⟩
    | inr h =>
      obtain ⟨j, h1, h2, h3⟩ := ih (j0 + 1) x h
      exact ⟨j, by omega, by omega, h3⟩

theorem canonViews_mem_inv (V : Nat → Nat → BlockViewModel) :
    ∀ (cnts : List Nat) (i0 : Nat) (x : Option BlockViewModel),
      x ∈ canonViews V cnts i0 →
      ∃ k j, k < cnts.length ∧ j < cnts.getD k 0 ∧ x = some (V (i0 + k) j) := by
  intro cnts
  induction cnts with
  | nil => intro i0 x hx; simp [canonViews] at hx
  | cons c rest ih =>
    intro i0 x hx
    simp only [canonViews, List.mem_append] at hx
    cases hx with
    | inl h =>
      obtain ⟨j, h1, h2, h3⟩ := someSeg_mem_inv (V i0) c 0 x h
      exact ⟨0, j, by simp, by simpa using h2, by simpa using h3⟩
    | inr h =>
      obtain ⟨k, j, h1, h2, h3⟩ := ih (i0 + 1) x h
      refine ⟨k + 1, j, by simpa using h1, by simpa using h2, ?_⟩
      rw [h3]
      have h4 : i0 + 1 + k = i0 + (k + 1) := by omega
      rw [h4]

theorem closedOffsets_append :
    ∀ (l1 l2 : List (Option BlockViewModel)) (i : Nat),
      closedOffsets i (l1 ++ l2)
        = closedOffsets i l1 ++ closedOffsets (i + l1.length) l2 := by
  intro l1
  induction l1 with
  | nil => intro l2 i; simp [closedOffsets]
  | cons x rest ih =>
    intro l2 i
    cases x with
    | none =>
      show closedOffsets (i + 1) (rest ++ l2)
          = closedOffsets (i + 1) rest ++ closedOffsets (i + (rest.length + 1)) l2
      rw [ih l2 (i + 1)]
      have h2 : i + 1 + rest.length = i + (rest.length + 1) := by omega
      rw [h2]
    | some v =>
      show i :: closedOffsets (i + 1) (rest ++ l2)
          = (i :: closedOffsets (i + 1) rest) ++ closedOffsets (i + (rest.length + 1)) l2
      rw [ih l2 (i + 1)]
      have h2 : i + 1 + rest.length = i + (rest.length + 1) := by omega
      rw [h2]
      rfl

theorem closedOffsets_replicate : ∀ (m i : Nat),
    closedOffsets i (List.replicate m (none : Option BlockViewModel)) = [] := by
  intro m
  induction m with
  | zero => intro i; rfl
  | succ m ih =>
    intro i
    show closedOffsets (i + 1) (List.replicate m none) = []
    exact ih (i + 1)

theorem closedOffsets_allSome :
    ∀ (l : List (Option BlockViewModel)) (i : Nat),
      (∀ x ∈ l, x.isSome) → closedOffsets i l = List.range' i l.length := by
  intro l
  induction l with
  | nil => intro i h; rfl
  | cons x rest ih =>
    intro i h
    cases x with
    | none =>
      have := h none (by simp)
      simp at this
    | some v =>
      show i :: closedOffsets (i + 1) rest = _
      rw [ih (i + 1) (fun x hx => h x (by simp [hx]))]
      rfl

theorem batchSeg_getD (attrs : List String) (Wf : Nat → BlockViewModel) :
    ∀ (n j0 j : Nat), j < n →
      (batchSeg attrs Wf j0 n).getD j default
        = { attrs := attrs, vecs := (Wf (j0 + j)).columns,
            rowCount := ((Wf (j0 + j)).columns.headD default).colLen } := by
  intro n
  induction n with
  | zero => intro j0 j h; omega
  | succ n ih =>
    intro j0 j h
    cases j with
    | zero => simp [batchSeg]
    | succ j2 =>
      show (batchSeg attrs Wf (j0 + 1) n).getD j2 default = _
      rw [ih (j0 + 1) j2 (by omega)]
      have h2 : j0 + 1 + j2 = j0 + (j2 + 1) := by omega
      rw [h2]

theorem delSeg_getD (Wf : Nat → BlockViewModel) :
    ∀ (n j0 j : Nat), j < n →
      (delSeg Wf j0 n).getD j default = (Wf (j0 + j)).deleteMask := by
  intro n
  induction n with
  | zero => intro j0 j h; omega
  | succ n ih =>
    intro j0 j h
    cases j with
    | zero => simp [delSeg]
    | succ j2 =>
      show (delSeg Wf (j0 + 1) n).getD j2 default = _
      rw [ih (j0 + 1) j2 (by omega)]
      have h2 : j0 + 1 + j2 = j0 + (j2 + 1) := by omega
      rw [h2]

theorem canonBatches_getD (attrs : List String) (V : Nat → Nat → BlockViewModel) :
    ∀ (cnts : List Nat) (i0 k j : Nat), k < cnts.length → j < cnts.getD k 0 →
      (canonBatches attrs V cnts i0).getD ((cnts.take k).sum + j) default
        = { attrs := attrs, vecs := (V (i0 + k) j).columns,
            rowCount := ((V (i0 + k) j).columns.headD default).colLen } := by
  intro cnts
  induction cnts with
  | nil => intro i0 k j hk hj; simp at hk
  | cons c rest ih =>
    intro i0 k j hk hj
    cases k with
    | zero =>
      show (batchSeg attrs (V i0) 0 c ++ canonBatches attrs V rest (i0 + 1)).getD
          ((List.take 0 (c :: rest)).sum + j) default = _
      simp only [List.take_zero, List.sum_nil, Nat.zero_add]
      rw [getD_append_left _ _ j (by rw [batchSeg_length]; simpa using hj)]
      rw [batchSeg_getD attrs (V i0) c 0 j (by simpa using hj)]
      simp
    | succ k2 =>
      show (batchSeg attrs (V i0) 0 c ++ canonBatches attrs V rest (i0 + 1)).getD
          ((List.take (k2 + 1) (c :: rest)).sum + j) default = _
      have hsum : (List.take (k2 + 1) (c :: rest)).sum + j
          = (batchSeg attrs (V i0) 0 c).length + ((rest.take k2).sum + j) := by
        rw [batchSeg_length, List.take_succ_cons, List.sum_cons]
        omega
      rw [hsum, getD_append_right]
      rw [ih (i0 + 1) k2 j (by simpa using hk) (by simpa using hj)]
      have h2 : i0 + 1 + k2 = i0 + (k2 + 1) := by omega
      rw [h2]

theorem canonDels_getD (V : Nat → Nat → BlockViewModel) :
    ∀ (cnts : List Nat) (i0 k j : Nat), k < cnts.length → j < cnts.getD k 0 →
      (canonDels V cnts i0).getD ((cnts.take k).sum + j) default
        = (V (i0 + k) j).deleteMask := by
  intro cnts
  induction cnts with
  | nil => intro i0 k j hk hj; simp at hk
  | cons c rest ih =>
    intro i0 k j hk hj
    cases k with
    | zero =>
      show (delSeg (V i0) 0 c ++ canonDels V rest (i0 + 1)).getD
          ((List.take 0 (c :: rest)).sum + j) default = _
      simp only [List.take_zero, List.sum_nil, Nat.zero_add]
      rw [getD_append_left _ _ j (by rw [delSeg_length]; simpa using hj)]
      rw [delSeg_getD (V i0) c 0 j (by simpa using hj)]
      simp
    | succ k2 =>
      show (delSeg (V i0) 0 c ++ canonDels V rest (i0 + 1)).getD
          ((List.take (k2 + 1) (c :: rest)).sum + j) default = _
      have hsum : (List.take (k2 + 1) (c :: rest)).sum + j
          = (delSeg (V i0) 0 c).length + ((rest.take k2).sum + j) := by
        rw [delSeg_length, List.take_succ_cons, List.sum_cons]
        omega
      rw [hsum, getD_append_right]
      rw [ih (i0 + 1) k2 j (by simpa using hk) (by simpa using hj)]
      have h2 : i0 + 1 + k2 = i0 + (k2 + 1) := by omega
      rw [h2]

/-! ## PrepareData characterization -/

theorem cnts_take_sum (objs : List ObjectEntry) (k : Nat) :
    ((objs.map (fun o => o.blockCnt)).take k).sum = sumBlk (objs.take k) := by
  rw [← List.map_take]
  rfl

/-- When all reads succeed, `PrepareData` reaches the batch-assembly
loop over the canonical full view array, and its outcome is decided by
`buildBatches`. -/
theorem PrepareData_read_char (txn : TxnModel) (objs : List ObjectEntry)
    (task : MergeTaskState) (tr : List CatAccess) (reader : ReaderFn)
    (V : Nat → Nat → BlockViewModel)
    (hT : NewMergeObjectsTask txn objs = (.ok task, tr))
    (hrd : ∀ i2 j2, i2 < objs.length → j2 < (objs.getD i2 default).blockCnt →
      reader (task.mergedObjsHandle.getD i2 default) j2 (prepIdxs task.rel.schema)
        = .ok (V i2 j2)) :
    PrepareData task reader =
      (match buildBatches (prepAttrs task.rel.schema)
          (canonViews V (objs.map (fun o => o.blockCnt)) 0) with
       | .error k => .panicked k []
       | .ok (bs, ds) =>
         .ok bs ds (closedOffsets 0 (canonViews V (objs.map (fun o => o.blockCnt)) 0))) := by
  obtain ⟨hmo, hbc, htot, -, hall, -⟩ := NewTask_ok_fields txn objs task tr hT
  have hlen : task.mergedObjsHandle.length = objs.length := (List.Forall₂.length_eq hall).symm
  have hbc2 : task.mergedBlkCnt = baseOffsets 0 task.mergedObjs := by rw [hmo]; exact hbc
  have htot2 : task.totalMergedBlkCnt = sumBlk task.mergedObjs := by rw [hmo]; exact htot
  have hlen2 : task.mergedObjsHandle.length = task.mergedObjs.length := by rw [hmo]; exact hlen
  unfold PrepareData
  dsimp only
  have h0 : (List.replicate task.totalMergedBlkCnt (none : Option BlockViewModel))
      = ([] : List (Option BlockViewModel))
        ++ List.replicate
            (task.totalMergedBlkCnt - ([] : List (Option BlockViewModel)).length) none := by
    simp
  rw [h0]
  rw [readObjsLoop_ok task reader (prepIdxs task.rel.schema) V hbc2 htot2 hlen2
    task.mergedObjs.length 0 [] (by omega) (by omega) (by simp [sumBlk])
    (fun i2 j2 h1 h2 h3 => hrd i2 j2 (by rw [hmo] at h2; exact h2)
      (by rw [hmo] at h3; exact h3))]
  dsimp only
  rw [hmo]
  simp only [List.drop_zero, List.nil_append]

/-- Full success characterization of `PrepareData`: one batch and one
mask per source block in flattened block-offset order, each batch over
the non-physical-address attributes, and a release list covering every
block offset exactly once. -/
theorem PrepareData_ok_char (txn : TxnModel) (objs : List ObjectEntry)
    (task : MergeTaskState) (tr : List CatAccess) (reader : ReaderFn)
    (V : Nat → Nat → BlockViewModel)
    (hT : NewMergeObjectsTask txn objs = (.ok task, tr))
    (hrd : ∀ i2 j2, i2 < objs.length → j2 < (objs.getD i2 default).blockCnt →
      reader (task.mergedObjsHandle.getD i2 default) j2 (prepIdxs task.rel.schema)
        = .ok (V i2 j2))
    (hcols : ∀ i2 j2, i2 < objs.length → j2 < (objs.getD i2 default).blockCnt →
      (V i2 j2).columns.length = (prepAttrs task.rel.schema).length ∧
      (V i2 j2).columns ≠ []) :
    PrepareData task reader = .ok
      (canonBatches (prepAttrs task.rel.schema) V (objs.map (fun o => o.blockCnt)) 0)
      (canonDels V (objs.map (fun o => o.blockCnt)) 0)
      (List.range (sumBlk objs)) := by
  rw [PrepareData_read_char txn objs task tr reader V hT hrd]
  have hbb := buildBatches_canon (prepAttrs task.rel.schema) V
    (objs.map (fun o => o.blockCnt)) 0
    (fun k j2 hk hj => by
      have hk2 : k < objs.length := by simpa using hk
      have hj2 : j2 < (objs.getD k default).blockCnt := by
        rw [← map_blockCnt_getD objs k hk2]
        exact hj
      simpa using hcols k j2 hk2 hj2)
  rw [hbb]
  dsimp only
  rw [closedOffsets_allSome _ 0 (canonViews_isSome V _ 0)]
  rw [canonViews_length]
  rw [← List.range_eq_range']
  rfl

/-- Full failure characterization of `PrepareData`: the first failing
read at object `fi`, block `fj` surfaces that error, after the deferred
release has closed exactly the views acquired so far (global offsets
`0 .. prefixSum(fi)+fj-1`, each once). -/
theorem PrepareData_fail_char (txn : TxnModel) (objs : List ObjectEntry)
    (task : MergeTaskState) (tr : List CatAccess) (reader : ReaderFn)
    (V : Nat → Nat → BlockViewModel) (fi fj : Nat) (e : MergeError)
    (hT : NewMergeObjectsTask txn objs = (.ok task, tr))
    (hfi : fi < objs.length)
    (hfj : fj < (objs.getD fi default).blockCnt)
    (hrd : ∀ i2 j2, (i2 < fi ∨ (i2 = fi ∧ j2 < fj)) → i2 < objs.length →
      j2 < (objs.getD i2 default).blockCnt →
      reader (task.mergedObjsHandle.getD i2 default) j2 (prepIdxs task.rel.schema)
        = .ok (V i2 j2))
    (hfail : reader (task.mergedObjsHandle.getD fi default) fj (prepIdxs task.rel.schema)
      = .error e) :
    PrepareData task reader = .err e (List.range (sumBlk (objs.take fi) + fj)) := by
  obtain ⟨hmo, hbc, htot, -, hall, -⟩ := NewTask_ok_fields txn objs task tr hT
  have hlen : task.mergedObjsHandle.length = objs.length := (List.Forall₂.length_eq hall).symm
  have hbc2 : task.mergedBlkCnt = baseOffsets 0 task.mergedObjs := by rw [hmo]; exact hbc
  have htot2 : task.totalMergedBlkCnt = sumBlk task.mergedObjs := by rw [hmo]; exact htot
  have hlen2 : task.mergedObjsHandle.length = task.mergedObjs.length := by rw [hmo]; exact hlen
  have hfi2 : fi < task.mergedObjs.length := by rw [hmo]; exact hfi
  have hfj2 : fj < (task.mergedObjs.getD fi default).blockCnt := by rw [hmo]; exact hfj
  unfold PrepareData
  dsimp only
  have h0 : (List.replicate task.totalMergedBlkCnt (none : Option BlockViewModel))
      = ([] : List (Option BlockViewModel))
        ++ List.replicate
            (task.totalMergedBlkCnt - ([] : List (Option BlockViewModel)).length) none := by
    simp
  rw [h0]
  rw [readObjsLoop_fail task reader (prepIdxs task.rel.schema) V fi fj e hbc2 htot2 hlen2
    hfi2 hfj2 hfail fi 0 [] (by omega) (by omega) (by simp [sumBlk])
    (fun i2 j2 h1 h2 h3 h4 => hrd i2 j2 h2 (by rw [hmo] at h3; exact h3)
      (by rw [hmo] at h4; exact h4))]
  dsimp only
  rw [hmo]
  simp only [List.drop_zero, Nat.sub_zero, List.nil_append]
  rw [closedOffsets_append]
  rw [closedOffsets_replicate]
  have hsome : ∀ x ∈ canonViews V ((objs.take fi).map (fun o => o.blockCnt)) 0
      ++ someSeg (V fi) 0 fj, x.isSome := by
    intro x hx
    rcases List.mem_append.mp hx with h | h
    · exact canonViews_isSome V _ 0 x h
    · exact someSeg_isSome (V fi) fj 0 x h
  rw [closedOffsets_allSome _ 0 hsome]
  have hXlen : (canonViews V ((objs.take fi).map (fun o => o.blockCnt)) 0
      ++ someSeg (V fi) 0 fj).length = sumBlk (objs.take fi) + fj := by
    rw [List.length_append, canonViews_length, someSeg_length]
    rfl
  rw [hXlen, ← List.range_eq_range']
  simp

/-! ## Claims C3, C5, C9 -/

/-- Claim C3: under a constructed task, (a) if the reads succeed up to
the first failure at object `fi`, block `fj`, `PrepareData` returns
that error after closing exactly the acquired views — global offsets
`0 .. prefixSum(fi)+fj-1`, each exactly once (the closed list is
`List.range`, duplicate-free and complete); (b) on success the returned
release function closes every view — offsets `0 .. total-1` — exactly
once when invoked. -/
theorem C3_views_released_exactly_once (txn : TxnModel) (objs : List ObjectEntry)
    (task : MergeTaskState) (tr : List CatAccess) (reader : ReaderFn)
    (hT : NewMergeObjectsTask txn objs = (.ok task, tr)) :
    (∀ (V : Nat → Nat → BlockViewModel) (fi fj : Nat) (e : MergeError),
      fi < objs.length →
      fj < (objs.getD fi default).blockCnt →
      (∀ i2 j2, (i2 < fi ∨ (i2 = fi ∧ j2 < fj)) → i2 < objs.length →
        j2 < (objs.getD i2 default).blockCnt →
        reader (task.mergedObjsHandle.getD i2 default) j2 (prepIdxs task.rel.schema)
          = .ok (V i2 j2)) →
      reader (task.mergedObjsHandle.getD fi default) fj (prepIdxs task.rel.schema)
        = .error e →
      PrepareData task reader = .err e (List.range (sumBlk (objs.take fi) + fj))) ∧
    (∀ (V : Nat → Nat → BlockViewModel),
      (∀ i2 j2, i2 < objs.length → j2 < (objs.getD i2 default).blockCnt →
        reader (task.mergedObjsHandle.getD i2 default) j2 (prepIdxs task.rel.schema)
          = .ok (V i2 j2)) →
      (∀ i2 j2, i2 < objs.length → j2 < (objs.getD i2 default).blockCnt →
        (V i2 j2).columns.length = (prepAttrs task.rel.schema).length ∧
        (V i2 j2).columns ≠ []) →
      ∃ bs ds, PrepareData task reader = .ok bs ds (List.range (sumBlk objs))) :=
  ⟨fun V fi fj e h1 h2 h3 h4 =>
      PrepareData_fail_char txn objs task tr reader V fi fj e hT h1 h2 h3 h4,
   fun V h1 h2 => ⟨_, _, PrepareData_ok_char txn objs task tr reader V hT h1 h2⟩⟩

/-- Claim C5: on success `PrepareData` returns exactly one batch and
one delete mask per source block, ordered by the flattened global
block-offset numbering (object `i`'s blocks at offsets
`prefixSum(i) .. prefixSum(i)+blockCnt(i)-1`), and every batch carries
exactly the non-physical-address attributes with the view's columns. -/
theorem C5_one_batch_per_block_in_offset_order (txn : TxnModel) (objs : List ObjectEntry)
    (task : MergeTaskState) (tr : List CatAccess) (reader : ReaderFn)
    (V : Nat → Nat → BlockViewModel)
    (hT : NewMergeObjectsTask txn objs = (.ok task, tr))
    (hrd : ∀ i2 j2, i2 < objs.length → j2 < (objs.getD i2 default).blockCnt →
      reader (task.mergedObjsHandle.getD i2 default) j2 (prepIdxs task.rel.schema)
        = .ok (V i2 j2))
    (hcols : ∀ i2 j2, i2 < objs.length → j2 < (objs.getD i2 default).blockCnt →
      (V i2 j2).columns.length = (prepAttrs task.rel.schema).length ∧
      (V i2 j2).columns ≠ []) :
    PrepareData task reader = .ok
      (canonBatches (prepAttrs task.rel.schema) V (objs.map (fun o => o.blockCnt)) 0)
      (canonDels V (objs.map (fun o => o.blockCnt)) 0)
      (List.range (sumBlk objs)) ∧
    (canonBatches (prepAttrs task.rel.schema) V
      (objs.map (fun o => o.blockCnt)) 0).length = sumBlk objs ∧
    (canonDels V (objs.map (fun o => o.blockCnt)) 0).length = sumBlk objs ∧
    (∀ i j, i < objs.length → j < (objs.getD i default).blockCnt →
      (canonBatches (prepAttrs task.rel.schema) V (objs.map (fun o => o.blockCnt)) 0).getD
          (sumBlk (objs.take i) + j) default
        = { attrs := prepAttrs task.rel.schema, vecs := (V i j).columns,
            rowCount := ((V i j).columns.headD default).colLen } ∧
      (canonDels V (objs.map (fun o => o.blockCnt)) 0).getD
          (sumBlk (objs.take i) + j) default = (V i j).deleteMask) := by
  refine ⟨PrepareData_ok_char txn objs task tr reader V hT hrd hcols, ?_, ?_, ?_⟩
  · rw [canonBatches_length]
    rfl
  · rw [canonDels_length]
    rfl
  · intro i j hi hj
    have hk : i < (objs.map (fun o => o.blockCnt)).length := by simpa using hi
    have hj2 : j < (objs.map (fun o => o.blockCnt)).getD i 0 := by
      rw [map_blockCnt_getD objs i hi]
      exact hj
    constructor
    · have := canonBatches_getD (prepAttrs task.rel.schema) V
        (objs.map (fun o => o.blockCnt)) 0 i j hk hj2
      rw [cnts_take_sum] at this
      simpa using this
    · have := canonDels_getD V (objs.map (fun o => o.blockCnt)) 0 i j hk hj2
      rw [cnts_take_sum] at this
      simpa using this

/-- Claim C9: under a constructed task whose reads all succeed,
(a) if any acquired view's column count differs from the number of
requested non-physical-address columns, `PrepareData` panics (it
neither returns normally nor returns an error), with no view released
by the deferred release; (b) if every view has exactly the requested
column count, the column-mismatch panic branch is unreachable. -/
theorem C9_column_mismatch_panics (txn : TxnModel) (objs : List ObjectEntry)
    (task : MergeTaskState) (tr : List CatAccess) (reader : ReaderFn)
    (V : Nat → Nat → BlockViewModel)
    (hT : NewMergeObjectsTask txn objs = (.ok task, tr))
    (hrd : ∀ i2 j2, i2 < objs.length → j2 < (objs.getD i2 default).blockCnt →
      reader (task.mergedObjsHandle.getD i2 default) j2 (prepIdxs task.rel.schema)
        = .ok (V i2 j2)) :
    ((∃ i j, i < objs.length ∧ j < (objs.getD i default).blockCnt ∧
        (V i j).columns.length ≠ (prepAttrs task.rel.schema).length) →
      ∃ k, PrepareData task reader = .panicked k []) ∧
    ((∀ i j, i < objs.length → j < (objs.getD i default).blockCnt →
        (V i j).columns.length = (prepAttrs task.rel.schema).length) →
      ∀ closed, PrepareData task reader ≠ .panicked PanicKind.columnMismatch closed) := by
  constructor
  · rintro ⟨i, j, hi, hj, hne⟩
    have hmem : some (V i j) ∈ canonViews V (objs.map (fun o => o.blockCnt)) 0 := by
      have := mem_canonViews V (objs.map (fun o => o.blockCnt)) 0 i j
        (by simpa using hi)
        (by rw [map_blockCnt_getD objs i hi]; exact hj)
      simpa using this
    obtain ⟨k, hk⟩ := buildBatches_error_of_mismatch (prepAttrs task.rel.schema) _ _
      hmem (fun hc => hne hc.symm)
    refine ⟨k, ?_⟩
    rw [PrepareData_read_char txn objs task tr reader V hT hrd, hk]
  · intro hall closed hcontra
    rw [PrepareData_read_char txn objs task tr reader V hT hrd] at hcontra
    cases hbb : buildBatches (prepAttrs task.rel.schema)
        (canonViews V (objs.map (fun o => o.blockCnt)) 0) with
    | ok p =>
      rcases p with ⟨bs, ds⟩
      rw [hbb] at hcontra
      simp at hcontra
    | error k =>
      rw [hbb] at hcontra
      dsimp only at hcontra
      injection hcontra with hkm hcl
      have hprop : ∀ v, some v ∈ canonViews V (objs.map (fun o => o.blockCnt)) 0 →
          (prepAttrs task.rel.schema).length = v.columns.length := by
        intro v hv
        obtain ⟨k2, j2, hk2, hj2, hx⟩ := canonViews_mem_inv V _ 0 _ hv
        have hveq : v = V k2 j2 := by
          simp only [Nat.zero_add] at hx
          injection hx
        rw [hveq]
        exact (hall k2 j2 (by simpa using hk2)
          (by rw [← map_blockCnt_getD objs k2 (by simpa using hk2)]; exact hj2)).symm
      exact buildBatches_ne_columnMismatch (prepAttrs task.rel.schema) _ hprop k hbb hkm

/-! ## Fixtures and witnesses for C4, C8, C10 -/

/-- A schema whose sort key is the primary key, two data columns and a
physical-address pseudo-column. -/
def schemaW : Schema :=
  { name := "t", version := 1, blockMaxRows := 1000,
    colDefs := [{ name := "k", idx := 0, seqNum := 0, isPhyAddr := false },
                { name := "c1", idx := 1, seqNum := 1, isPhyAddr := false },
                { name := "rowid", idx := 2, seqNum := 2, isPhyAddr := true }],
    sortKey := some { idx := 0, isPrimary := true } }

def statsW1 : ObjectStats := { objectID := 11, rowCnt := 100 }

def objW1 : ObjectEntry :=
  { id := 11, dbID := 7, tableID := 3, blockCnt := 2, stats := statsW1 }

def relW : Relation := { id := 3, schema := schemaW, objects := [objW1] }

def txnW : TxnModel := { startTS := 5, databases := [{ id := 7, relations := [relW] }] }

/-- The task produced by constructing over `[objW1]` in `txnW`. -/
def taskW : MergeTaskState :=
  { txnStartTS := 5, did := 7, tid := 3, rel := relW, mergedObjs := [objW1],
    mergedObjsHandle := [objW1], mergedBlkCnt := [0], totalMergedBlkCnt := 2 }

def trW : List CatAccess :=
  [CatAccess.getDatabase 7, CatAccess.getRelation 3, CatAccess.getObject 11]

def mwFailW : Int → Nat → Except MergeError Unit := fun _ _ => .error (.injected 1)

def mwOkW : Int → Nat → Except MergeError Unit := fun _ _ => .ok ()

def applyFailW : Except MergeError (List CreatedObjRec) := .error (.injected 2)

def applyOkW : Except MergeError (List CreatedObjRec) := .ok []

/-- Witness for C4 at the concrete primary-key schema. -/
theorem C4_witness :
    (ExecuteModel schemaW mwOkW applyOkW).mwCalls
        = [((PrepareNewWriterFunc schemaW).sortkeyPos, schemaW.blockMaxRows)] ∧
    (PrepareNewWriterFunc schemaW).sortkeyPos = executeSortkeyPos schemaW ∧
    (PrepareNewWriterFunc schemaW).sortkeyPos
        = (match schemaW.sortKey with | some k => (k.idx : Int) | none => -1) ∧
    ((PrepareNewWriterFunc schemaW).sortkeyIsPK = true ↔
      ∃ k, schemaW.sortKey = some k ∧ k.isPrimary = true) :=
  C4_sortkey_position_consistent schemaW mwOkW applyOkW

/-- Witness for C8: a phase-1 failure and a phase-2 failure at concrete
inputs, each logging its phase and propagating its error. -/
theorem C8_witness :
    ((ExecuteModel schemaW mwFailW applyOkW).retErr = some (.injected 1) ∧
     (ExecuteModel schemaW mwFailW applyOkW).loggedPhase =
       some ("1-DoMergeAndWrite", .injected 1) ∧
     (ExecuteModel schemaW mwFailW applyOkW).applyCalls = 0) ∧
    ((ExecuteModel schemaW mwOkW applyFailW).retErr = some (.injected 2) ∧
     (ExecuteModel schemaW mwOkW applyFailW).loggedPhase =
       some ("2-HandleMergeEntryInTxn", .injected 2) ∧
     (ExecuteModel schemaW mwOkW applyFailW).applyCalls = 1) :=
  ⟨(C8_phase_sequencing schemaW mwFailW applyOkW).2.2.2.1 (.injected 1) rfl,
   (C8_phase_sequencing schemaW mwOkW applyFailW).2.2.2.2.1 (.injected 2) rfl rfl⟩

def colW : ColumnModel := { data := 3, colLen := 4 }

/-- A well-formed view: two columns, matching `schemaW`'s two
non-physical-address columns. -/
def viewW : BlockViewModel := { columns := [colW, colW], deleteMask := [1] }

/-- A malformed view: only one column. -/
def viewBadW : BlockViewModel := { columns := [colW], deleteMask := [] }

def readerOkW : ReaderFn := fun _ _ _ => .ok viewW

def readerFailW : ReaderFn := fun _ j _ => if j = 1 then .error (.injected 7) else .ok viewW

def readerBadW : ReaderFn := fun _ _ _ => .ok viewBadW

def VokW : Nat → Nat → BlockViewModel := fun _ _ => viewW

def VbadW : Nat → Nat → BlockViewModel := fun _ _ => viewBadW

/-- Witness for C3: a failure at block 1 closes exactly view 0; a full
success returns a release list covering both blocks once each. -/
theorem C3_witness :
    PrepareData taskW readerFailW
        = .err (.injected 7) (List.range (sumBlk ([objW1].take 0) + 1)) ∧
    (∃ bs ds, PrepareData taskW readerOkW = .ok bs ds (List.range (sumBlk [objW1]))) :=
  ⟨(C3_views_released_exactly_once txnW [objW1] taskW trW readerFailW (by rfl)).1
      VokW 0 1 (.injected 7) (by decide) (by decide)
      (fun i2 j2 hc h1 h2 => by
        rcases hc with hlt | ⟨heq, hj⟩
        · exact absurd hlt (Nat.not_lt_zero i2)
        · have hj0 : j2 = 0 := by omega
          subst heq
          rw [hj0]
          rfl)
      rfl,
   (C3_views_released_exactly_once txnW [objW1] taskW trW readerOkW (by rfl)).2
      VokW (fun i2 j2 h1 h2 => rfl) (fun i2 j2 h1 h2 => ⟨rfl, List.cons_ne_nil _ _⟩)⟩

/-- Witness for C5 at the concrete fixture. -/
theorem C5_witness :
    PrepareData taskW readerOkW = .ok
        (canonBatches (prepAttrs taskW.rel.schema) VokW ([objW1].map (fun o => o.blockCnt)) 0)
        (canonDels VokW ([objW1].map (fun o => o.blockCnt)) 0)
        (List.range (sumBlk [objW1])) :=
  (C5_one_batch_per_block_in_offset_order txnW [objW1] taskW trW readerOkW VokW (by rfl)
    (fun _ _ _ _ => rfl) (fun _ _ _ _ => ⟨rfl, List.cons_ne_nil _ _⟩)).1

/-- Witness for C9: a reader yielding one-column views makes
`PrepareData` panic with nothing released, while matching views never
hit the column-mismatch panic. -/
theorem C9_witness :
    (∃ k, PrepareData taskW readerBadW = .panicked k []) ∧
    (∀ closed, PrepareData taskW readerOkW ≠ .panicked PanicKind.columnMismatch closed) :=
  ⟨(C9_column_mismatch_panics txnW [objW1] taskW trW readerBadW VbadW (by rfl)
      (fun _ _ _ _ => rfl)).1 ⟨0, 0, by decide, by decide, by decide⟩,
   (C9_column_mismatch_panics txnW [objW1] taskW trW readerOkW VokW (by rfl)
      (fun _ _ _ _ => rfl)).2 (fun _ _ _ _ => rfl)⟩

/-- Witness for C10 at the concrete fixture. -/
theorem C10_witness :
    taskW.did = objW1.dbID ∧ taskW.tid = objW1.tableID ∧
    (PrepareCommitEntry taskW).dbID = objW1.dbID ∧
    (PrepareCommitEntry taskW).tableID = objW1.tableID :=
  ⟨(C10_identity_from_first_object txnW objW1 [] taskW trW (by rfl)).1,
   (C10_identity_from_first_object txnW objW1 [] taskW trW (by rfl)).2.1,
   (C10_identity_from_first_object txnW objW1 [] taskW trW (by rfl)).2.2.2.2.1,
   (C10_identity_from_first_object txnW objW1 [] taskW trW (by rfl)).2.2.2.2.2⟩

end MergeSpec
